import Mathlib

/-!
# bubblehelp: a shallow embedding of `type.go` and `bubblehelp.go`

The Go package keeps a process-wide registry of keymap contexts and renders the
current one either as a single line (`ViewEssential`) or as a column grid
(`ViewAll`).

Modelling choices.

* Go `*Keymap` pointers are addresses into an explicit store (`Registry.heap`) of
  `Keymap` structs; a nil pointer is `none`.  Two context identifiers may hold
  the same pointer.
* The field `Bindings` of a stored struct is a slice header into a backing array
  (`Registry.arrays`), so two structs can share entries; `Reset`, `setVisible`
  and `updateHelpDesc` write the entries in place (`writeSlice`).
* The type `Keymap` is a keymap as a method sees it through its receiver: the
  entries of its slice in order, the column count and the style.
* The global variables of `bubblehelp.go` are the fields of `Registry`.
* A Go map is a finite partial function; a nil map (before `Init`) is `none`.
* `strings.Builder` is the list of the writes it received; `String()` is their
  concatenation.
* The external packages (`lipgloss`, `math`, the float to int conversion of the
  target architecture) are the fields of `Env`.
* Go `int` is a 64-bit integer: `colCount++` wraps (`wrap64`).  `len` values and
  loop indices are far below `2^63`, they are plain integers.
* A run-time panic is `Except.error`.
* The divisions and remainders `ViewAll` evaluates are listed by `viewAllOps`, which
  agrees with the panics of the model (`viewAllOps_modulo_zero_iff`).
-/

namespace Bubblehelp

/-! ## External types (`bubbles/key`, `lipgloss`) -/

/-- The `key.Help` struct of `bubbles/key`: the label shown and its description. -/
structure Help where
  Key : String
  Desc : String
  deriving DecidableEq, Repr

/-- The `key.Binding` struct of `bubbles/key` (`keys`, `help`, `disabled`). -/
structure Binding where
  keys : List String
  help : Help
  disabled : Bool
  deriving DecidableEq, Repr

/-- The method `key.Binding.Help()`. -/
def Binding.Help (b : Binding) : Help := b.help

/-- The method `key.Binding.SetHelp(key, desc)`. -/
def Binding.SetHelp (b : Binding) (key desc : String) : Binding :=
  { b with help := { Key := key, Desc := desc } }

/-- A `lipgloss.Style` value, as far as this package builds one
(`NewStyle().Bold(true)`, `NewStyle().Italic(true)`). -/
structure LipglossStyle where
  bold : Bool
  italic : Bool
  deriving DecidableEq, Repr

/-- The call `lipgloss.NewStyle()`. -/
def NewStyle : LipglossStyle := { bold := false, italic := false }

/-- The method `lipgloss.Style.Bold(v)`. -/
def LipglossStyle.Bold (s : LipglossStyle) (v : Bool) : LipglossStyle := { s with bold := v }

/-- The method `lipgloss.Style.Italic(v)`. -/
def LipglossStyle.Italic (s : LipglossStyle) (v : Bool) : LipglossStyle := { s with italic := v }

/-- The `lipgloss.Position` constants used by the package. -/
inductive Position where
  | Top
  | Center
  deriving DecidableEq, Repr

/-- What the package takes from outside: the `lipgloss` renderers and the
implementation-dependent result of converting a non-finite `float64` to `int`. -/
structure Env where
  /-- The method `lipgloss.Style.Render(s)`. -/
  Render : LipglossStyle → String → String
  /-- The function `lipgloss.JoinHorizontal(pos, strs...)`. -/
  JoinHorizontal : Position → List String → String
  /-- The chain `lipgloss.NewStyle().AlignHorizontal(lipgloss.Center).Width(width).Render(s)`. -/
  RenderCentered : Int → String → String
  /-- The value of `int(math.Ceil(x))` for `x = +Inf`. -/
  intOfPosInf : Int
  /-- The value of `int(math.Ceil(x))` for `x = NaN`. -/
  intOfNaN : Int

/-! ## `type.go` -/

/-- The Go type `KeymapContext` (a string). -/
abbrev KeymapContext := String

/-- The `Style` struct. -/
structure Style where
  EssentialKey : LipglossStyle
  EssentialKeyDescription : LipglossStyle
  EssentialKeySeparator : LipglossStyle
  EssentialKeySeparatorValue : String
  EssentialColSeparator : LipglossStyle
  EssentialColSeparatorValue : String
  FullKey : LipglossStyle
  FullKeyDescription : LipglossStyle
  FullKeySeparator : LipglossStyle
  FullKeySeparatorValue : String
  FullColSeparator : LipglossStyle
  FullColSeparatorValue : String
  deriving DecidableEq, Repr

/-- The `Key` struct: one keybind of a keymap. -/
structure Key where
  Binding : Binding
  Essential : Bool
  CustomHelpDesc : String
  Visible : Bool
  deriving DecidableEq, Repr

/-- The method `Key.GetHelpDesc`: the temporary description when there is one,
the description of the binding otherwise. -/
def Key.GetHelpDesc (k : Key) : String :=
  if k.CustomHelpDesc = "" then k.Binding.Help.Desc else k.CustomHelpDesc

/-- The `Keymap` struct as read through a `*Keymap`: the entries of its slice
`Bindings` in order, the column count and the style. -/
structure Keymap where
  Bindings : List Key
  ShowAllColumnCount : Int
  Style : Style
  deriving DecidableEq, Repr

/-- The style literal written out in `NewKeymap` and in `Init`, with its strings
as they stand in the source files. -/
def literalStyle : Style :=
  { EssentialKey := NewStyle.Bold true
    EssentialKeyDescription := NewStyle.Italic true
    EssentialKeySeparator := NewStyle.Italic true
    EssentialKeySeparatorValue := " - "
    EssentialColSeparator := NewStyle.Bold true
    EssentialColSeparatorValue := " â€¢ "
    FullKey := NewStyle.Bold true
    FullKeyDescription := NewStyle.Italic true
    FullKeySeparator := NewStyle.Italic true
    FullKeySeparatorValue := " - "
    FullColSeparator := NewStyle.Italic true
    FullColSeparatorValue := "   " }

/-- The function `NewKeymap(showAllColCount)`: the keymap the returned pointer
refers to. -/
def NewKeymap (showAllColCount : Int) : Keymap :=
  { Bindings := []
    ShowAllColumnCount := showAllColCount
    Style := literalStyle }

/-- The method `Keymap.NewKeyBinding(binding, essential)`. -/
def Keymap.NewKeyBinding (k : Keymap) (binding : Binding) (essential : Bool) : Keymap :=
  { k with Bindings := k.Bindings ++
      [{ Binding := binding, Essential := essential, CustomHelpDesc := "", Visible := true }] }

/-- The loop of `EssentialBindings`, over the bindings still to visit, with the
slice built so far. -/
def essentialLoop : List Key → List Key → List Key
  | [], essentials => essentials
  | k :: rest, essentials =>
    if !k.Essential || !k.Visible then essentialLoop rest essentials
    else essentialLoop rest (essentials ++ [k])

/-- The method `Keymap.EssentialBindings`. -/
def Keymap.EssentialBindings (k : Keymap) : List Key := essentialLoop k.Bindings []

/-- The loop of `AllBindings`, over the bindings still to visit, with the slice
built so far. -/
def allLoop : List Key → List Key → List Key
  | [], all => all
  | k :: rest, all =>
    if !k.Visible then allLoop rest all
    else allLoop rest (all ++ [k])

/-- The method `Keymap.AllBindings`. -/
def Keymap.AllBindings (k : Keymap) : List Key := allLoop k.Bindings []

/-- The loop of `Reset` over the bindings from the current index on. -/
def resetLoop : List Key → List Key
  | [] => []
  | k :: rest => { k with CustomHelpDesc := "", Visible := true } :: resetLoop rest

/-- The method `Keymap.Reset`. -/
def Keymap.Reset (k : Keymap) : Keymap := { k with Bindings := resetLoop k.Bindings }

/-- The loop of `SetHelpDesc` from the current index on: the first entry whose
label is the one looked for gets the new help, and the loop returns. -/
def setHelpDescLoop (label desc : String) : List Key → List Key
  | [] => []
  | k :: rest =>
    if label = k.Binding.Help.Key then
      { k with Binding := k.Binding.SetHelp k.Binding.Help.Key desc } :: rest
    else k :: setHelpDescLoop label desc rest

/-- The method `Keymap.SetHelpDesc(keybind, desc)`. -/
def Keymap.SetHelpDesc (k : Keymap) (keybind : Binding) (desc : String) : Keymap :=
  { k with Bindings := setHelpDescLoop keybind.Help.Key desc k.Bindings }

/-- The loop of `updateHelpDesc` from the current index on. -/
def updateHelpDescLoop (label desc : String) : List Key → List Key
  | [] => []
  | k :: rest =>
    if label = k.Binding.Help.Key then { k with CustomHelpDesc := desc } :: rest
    else k :: updateHelpDescLoop label desc rest

/-- The method `Keymap.updateHelpDesc(keybind, desc)`. -/
def Keymap.updateHelpDesc (k : Keymap) (keybind : Binding) (desc : String) : Keymap :=
  { k with Bindings := updateHelpDescLoop keybind.Help.Key desc k.Bindings }

/-- The loop of `setVisible` from the current index on. -/
def setVisibleLoop (label : String) (visible : Bool) : List Key → List Key
  | [] => []
  | k :: rest =>
    if label = k.Binding.Help.Key then { k with Visible := visible } :: rest
    else k :: setVisibleLoop label visible rest

/-- The method `Keymap.setVisible(keybind, visible)`. -/
def Keymap.setVisible (k : Keymap) (keybind : Binding) (visible : Bool) : Keymap :=
  { k with Bindings := setVisibleLoop keybind.Help.Key visible k.Bindings }

/-- The loop of `isVisible` from the current index on; `false` when it runs off
the end of the slice. -/
def isVisibleLoop (label : String) : List Key → Bool
  | [] => false
  | k :: rest => if label = k.Binding.Help.Key then k.Visible else isVisibleLoop label rest

/-- The method `Keymap.isVisible(keybind)`. -/
def Keymap.isVisible (k : Keymap) (keybind : Binding) : Bool :=
  isVisibleLoop keybind.Help.Key k.Bindings

/-! ## `bubblehelp.go`: the registry -/

/-- The run-time panics the package can raise. -/
inductive Panic where
  /-- Integer division or modulo by zero. -/
  | integerDivideByZero
  /-- Assignment to an entry of a nil map. -/
  | assignmentToNilMap
  deriving DecidableEq, Repr

/-- An address of a `Keymap` in the store. -/
abbrev Ptr := Nat

/-- A Go slice of `Key`: the backing array it points into, the index of its
first element in that array, its length and its capacity (the capacity matters
to `append` only). -/
structure Slice where
  array : Nat
  off : Nat
  len : Nat
  cap : Nat
  deriving DecidableEq, Repr

/-- Two slices with no element in common. -/
abbrev Slice.Disjoint (s t : Slice) : Prop :=
  s.array ≠ t.array ∨ s.off + s.len ≤ t.off ∨ t.off + t.len ≤ s.off ∨ s.len = 0 ∨ t.len = 0

/-- The `Keymap` struct as it lies in memory: `Bindings` is a slice header. -/
structure KeymapStruct where
  Bindings : Slice
  ShowAllColumnCount : Int
  Style : Style
  deriving DecidableEq, Repr

/-- The backing arrays of the slices: the element at an index of the array at an
address. -/
abbrev Arrays := Nat → Nat → Key

/-- The elements of a slice, in order. -/
def readSlice (arrays : Arrays) (s : Slice) : List Key :=
  (List.range s.len).map (fun i => arrays s.array (s.off + i))

/-- The backing arrays after the elements of the slice `s` are assigned, in
place, the values `l` (as many as the slice is long). -/
def writeSlice (arrays : Arrays) (s : Slice) (l : List Key) : Arrays :=
  fun a j =>
    if a = s.array ∧ s.off ≤ j ∧ j < s.off + s.len then l.getD (j - s.off) (arrays a j)
    else arrays a j

/-- The package-level variables of `bubblehelp.go`, the store the `*Keymap`
pointers refer to, the backing arrays of the slices, and the lines written by
`log.Println`. -/
structure Registry where
  CurrentContext : KeymapContext
  /-- The map `Contexts`: `none` is the nil map; inside, `none` is an absent
  identifier and `some none` an identifier holding a nil pointer. -/
  Contexts : Option (KeymapContext → Option (Option Ptr))
  ShowAll : Bool
  previousContext : KeymapContext
  defaultStyle : Style
  heap : Ptr → KeymapStruct
  arrays : Arrays
  logged : List String

/-- The keymap a method sees through the pointer `p`. -/
def Registry.keymap (r : Registry) (p : Ptr) : Keymap :=
  { Bindings := readSlice r.arrays (r.heap p).Bindings
    ShowAllColumnCount := (r.heap p).ShowAllColumnCount
    Style := (r.heap p).Style }

/-- The lookup `v, ok := Contexts[id]`: `none` when `ok` is false (absent
identifier, or nil map), otherwise the pointer held (`none` for nil). -/
def Registry.lookup (r : Registry) (id : KeymapContext) : Option (Option Ptr) :=
  match r.Contexts with
  | none => none
  | some m => m id

/-- The function `Init`. -/
def Init (r : Registry) : Registry :=
  { r with
    Contexts := some (fun _ => none)
    defaultStyle := literalStyle }

/-- The function `RegisterContext(context, keymap)`; writing to a nil map panics. -/
def RegisterContext (r : Registry) (context : KeymapContext) (keymap : Option Ptr) :
    Except Panic Registry :=
  match r.Contexts with
  | none => .error .assignmentToNilMap
  | some m => .ok { r with Contexts := some (Function.update m context (some keymap)) }

/-- The function `GetCurrentContextKeymap`: the pointer held under
`CurrentContext`, nil (`none`) when there is none. -/
def GetCurrentContextKeymap (r : Registry) : Option Ptr :=
  match r.lookup r.CurrentContext with
  | none => none
  | some ctx => ctx

/-- The function `SwitchContext(context)`. -/
def SwitchContext (r : Registry) (context : KeymapContext) : Registry :=
  let logged :=
    match r.lookup context with
    | none => r.logged ++ ["bubblehelp: context not found"]
    | some _ => r.logged
  let arrays :=
    match GetCurrentContextKeymap r with
    | some p => writeSlice r.arrays (r.heap p).Bindings (r.keymap p).Reset.Bindings
    | none => r.arrays
  { r with
    logged := logged
    arrays := arrays
    previousContext := r.CurrentContext
    CurrentContext := context
    ShowAll := false }

/-- The function `SwitchToPreviousContext`. -/
def SwitchToPreviousContext (r : Registry) : Registry :=
  SwitchContext r r.previousContext

/-- The function `UpdateKeybindHelpDesc(keybind, desc)`. -/
def UpdateKeybindHelpDesc (r : Registry) (keybind : Binding) (desc : String) : Registry :=
  match GetCurrentContextKeymap r with
  | none => r
  | some p =>
    let entries := ((r.keymap p).updateHelpDesc keybind desc).Bindings
    { r with arrays := writeSlice r.arrays (r.heap p).Bindings entries }

/-- The function `SetKeybindVisible(keybind, visible)`. -/
def SetKeybindVisible (r : Registry) (keybind : Binding) (visible : Bool) : Registry :=
  match GetCurrentContextKeymap r with
  | none => r
  | some p =>
    let entries := ((r.keymap p).setVisible keybind visible).Bindings
    { r with arrays := writeSlice r.arrays (r.heap p).Bindings entries }

/-- The function `IsKeybindVisible(keybind)`. -/
def IsKeybindVisible (r : Registry) (keybind : Binding) : Bool :=
  match GetCurrentContextKeymap r with
  | none => false
  | some p => (r.keymap p).isVisible keybind

/-- The function `SetDefaultStyle(style)`. -/
def SetDefaultStyle (r : Registry) (style : Style) : Registry :=
  { r with defaultStyle := style }

/-! ## `bubblehelp.go`: the layout engine -/

/-- One write into a `strings.Builder`: the line break `"\n"` or a rendered text. -/
inductive Piece where
  | newline
  | text (s : String)
  deriving DecidableEq, Repr

/-- The string a write appends. -/
def Piece.str : Piece → String
  | .newline => "\n"
  | .text s => s

/-- A `strings.Builder`: the writes received since the last `Reset`, in order. -/
abbrev Builder := List Piece

/-- The method `strings.Builder.String()`. -/
def Builder.String (b : Builder) : String := String.join (b.map Piece.str)

/-- The number of rendered texts (not line breaks) held by a builder. -/
def Builder.texts (b : Builder) : Nat := (b.filter (fun p => p != Piece.newline)).length

/-- An element appended to the slice `columns` of `ViewAll`: a closed column,
kept as its three builders, or the column separator value. -/
inductive Column where
  | block (keyStr sepStr descStr : Builder)
  | separator (value : String)
  deriving DecidableEq, Repr

/-- The string stored in `columns` for an element. -/
def Column.str (env : Env) : Column → String
  | .block keyStr sepStr descStr =>
    env.JoinHorizontal Position.Center [keyStr.String, sepStr.String, descStr.String]
  | .separator value => value

/-- Whether an element of `columns` is a closed column. -/
def Column.isBlock : Column → Bool
  | .block _ _ _ => true
  | .separator _ => false

/-- The number of entries written into a closed column (none for a separator). -/
def Column.entries : Column → Nat
  | .block keyStr _ _ => keyStr.texts
  | .separator _ => 0

/-- The wrap-around of a 64-bit signed integer. -/
def wrap64 (x : Int) : Int := (x + 2 ^ 63) % 2 ^ 64 - 2 ^ 63

/-- The Go remainder `a % b` of two `int` values: truncated, and a panic when
`b` is zero. -/
def goMod (a b : Int) : Except Panic Int :=
  if b = 0 then .error .integerDivideByZero else .ok (Int.tmod a b)

/-- The value of `int(math.Ceil(float64(n) / float64(colCount)))` for a slice
length `n`: the integer ceiling of the quotient when `colCount` is not zero
(the `float64` quotient of a slice length is exact enough for that), and the
conversion of `+Inf` or of `NaN` when it is zero. -/
def rowCountOf (env : Env) (n : Nat) (colCount : Int) : Int :=
  if colCount = 0 then (if n = 0 then env.intOfNaN else env.intOfPosInf)
  else -(Int.fdiv (-(n : Int)) colCount)

/-- The variables of `ViewAll` that change in its loop. -/
structure ViewAllState where
  columns : List Column
  colCount : Int
  keyStr : Builder
  sepStr : Builder
  descStr : Builder
  deriving DecidableEq, Repr

/-- The writes one entry causes in one of the three builders of `ViewAll`: the
line break when the entry needs one, then the rendered text. -/
def writeEntry (b : Builder) (lineBreak : Bool) (t : String) : Builder :=
  b ++ (if lineBreak then [Piece.newline] else []) ++ [Piece.text t]

/-- One pass of the loop body of `ViewAll`, for the entry `key` at index `i` of a
slice `keys` of length `n`. -/
def viewAllBody (env : Env) (keymap : Keymap) (n : Nat) (rowCount : Int)
    (i : Nat) (key : Key) (st : ViewAllState) : Except Panic ViewAllState := do
  let remainingCount : Int := (n : Int) - (i : Int)
  let notLastCol : Bool := decide ((st.columns.length : Int) + 1 < st.colCount)
  let m ← goMod (i : Int) rowCount
  let lineBreak : Bool := decide (m > 0) || (decide (remainingCount = 1) && notLastCol)
  let keyStr := writeEntry st.keyStr lineBreak
    (env.Render keymap.Style.FullKey key.Binding.Help.Key)
  let sepStr := writeEntry st.sepStr lineBreak
    (env.Render keymap.Style.FullKeySeparator keymap.Style.FullKeySeparatorValue)
  let descStr := writeEntry st.descStr lineBreak
    (env.Render keymap.Style.FullKeyDescription key.GetHelpDesc)
  let m1 ← goMod ((i : Int) + 1) rowCount
  if (decide (m1 = 0) && decide (i ≠ 0) && notLastCol) || decide (remainingCount = 1) then
    let columns := st.columns ++ [Column.block keyStr sepStr descStr]
    if (i : Int) < (n : Int) - 1 then
      pure { columns := columns ++ [Column.separator keymap.Style.FullColSeparatorValue]
             colCount := wrap64 (st.colCount + 1)
             keyStr := [], sepStr := [], descStr := [] }
    else
      pure { columns := columns, colCount := st.colCount
             keyStr := [], sepStr := [], descStr := [] }
  else
    pure { st with keyStr := keyStr, sepStr := sepStr, descStr := descStr }

/-- The loop `for i, key := range keys` of `ViewAll`, from index `i` on, over the
entries still to visit. -/
def viewAllLoop (env : Env) (keymap : Keymap) (n : Nat) (rowCount : Int) :
    Nat → List Key → ViewAllState → Except Panic ViewAllState
  | _, [], st => pure st
  | i, key :: rest, st => do
    let st1 ← viewAllBody env keymap n rowCount i key st
    viewAllLoop env keymap n rowCount (i + 1) rest st1

/-- The slice `columns` at the end of `ViewAll(keymap, width)`, before the final
join. -/
def ViewAllColumns (env : Env) (keymap : Keymap) : Except Panic (List Column) := do
  let keys := keymap.AllBindings
  let colCount := keymap.ShowAllColumnCount
  let rowCount := rowCountOf env keys.length colCount
  let st ← viewAllLoop env keymap keys.length rowCount 0 keys
    { columns := [], colCount := colCount, keyStr := [], sepStr := [], descStr := [] }
  pure st.columns

/-- The function `ViewAll(keymap, width)`. -/
def ViewAll (env : Env) (keymap : Keymap) (_width : Int) : Except Panic String := do
  let columns ← ViewAllColumns env keymap
  pure (env.JoinHorizontal Position.Top (columns.map (Column.str env)))

/-- The loop of `ViewEssential`, from index `i` on: the writes into the builder `b`. -/
def viewEssentialLoop (env : Env) (keymap : Keymap) : Nat → List Key → Builder → Builder
  | _, [], b => b
  | i, key :: rest, b =>
    let b1 := if i > 0 then
        b ++ [Piece.text (env.Render keymap.Style.EssentialColSeparator
          keymap.Style.EssentialColSeparatorValue)]
      else b
    let b2 := b1 ++ [Piece.text (env.Render keymap.Style.EssentialKey key.Binding.Help.Key)]
    let b3 := b2 ++ [Piece.text (env.Render keymap.Style.EssentialKeySeparator
      keymap.Style.EssentialKeySeparatorValue)]
    let b4 := b3 ++ [Piece.text (env.Render keymap.Style.EssentialKeyDescription key.GetHelpDesc)]
    viewEssentialLoop env keymap (i + 1) rest b4

/-- The function `ViewEssential(keymap, width)`. -/
def ViewEssential (env : Env) (keymap : Keymap) (width : Int) : String :=
  env.RenderCentered width (viewEssentialLoop env keymap 0 keymap.EssentialBindings []).String

/-- The function `View(width)`. -/
def View (env : Env) (r : Registry) (width : Int) : Except Panic String :=
  match GetCurrentContextKeymap r with
  | none => pure "ERROR : UNKNOWN KEYMAP CONTEXT"
  | some p =>
    if r.ShowAll then ViewAll env (r.keymap p) width
    else pure (ViewEssential env (r.keymap p) width)

/-! ## Sample values -/

/-- An environment for evaluating the definitions: renderers that add nothing,
a join that concatenates, and the conversions of the amd64 architecture. -/
def sampleEnv : Env :=
  { Render := fun _ s => s
    JoinHorizontal := fun _ strs => String.join strs
    RenderCentered := fun _ s => s
    intOfPosInf := -2 ^ 63
    intOfNaN := -2 ^ 63 }

/-- A binding with the given label and description. -/
def mkBinding (label desc : String) : Binding :=
  { keys := [label], help := { Key := label, Desc := desc }, disabled := false }

/-- An entry in its state after `NewKeyBinding`. -/
def mkKey (label desc : String) (essential : Bool) : Key :=
  { Binding := mkBinding label desc, Essential := essential, CustomHelpDesc := "", Visible := true }

/-- Five entries in their state after `NewKeyBinding`. -/
def sampleKeys : List Key :=
  [mkKey "a" "A" false, mkKey "b" "B" false, mkKey "c" "C" false, mkKey "d" "D" false,
   mkKey "e" "E" false]

/-- A keymap holding the first `n` sample entries (at most five), all visible. -/
def sampleKeymap (colCount : Int) (n : Nat) : Keymap :=
  { Bindings := sampleKeys.take n
    ShowAllColumnCount := colCount
    Style := literalStyle }

/-- The keymap `NewKeymap(-2)` after one `NewKeyBinding`. -/
def negativeKeymap : Keymap :=
  (NewKeymap (-2)).NewKeyBinding (mkBinding "s" "save") true

/-- A registry holding one keymap, at address 0 under the identifier `"start"`,
which is the current context; every stored keymap has a backing array of its own,
its second entry is hidden and its first carries a temporary description. -/
def sampleRegistry : Registry :=
  { CurrentContext := "start"
    Contexts := some (fun id => if id = "start" then some (some 0) else none)
    ShowAll := true
    previousContext := ""
    defaultStyle := literalStyle
    heap := fun p =>
      { Bindings := { array := p, off := 0, len := 2, cap := 2 }
        ShowAllColumnCount := 2
        Style := literalStyle }
    arrays := fun _ i =>
      if i = 0 then { mkKey "s" "save" true with CustomHelpDesc := "tmp" }
      else { mkKey "esc" "back" false with Visible := false }
    logged := [] }

/-- A registry whose two identifiers hold two keymap structs, at addresses 0 and
1, that share one backing array (the second is a copy `cp := *k0` of the first);
`"a"` is the current context and the shared entry is hidden. -/
def sharedRegistry : Registry :=
  { CurrentContext := "a"
    Contexts := some (fun id =>
      if id = "a" then some (some 0) else if id = "b" then some (some 1) else none)
    ShowAll := false
    previousContext := ""
    defaultStyle := literalStyle
    heap := fun _ =>
      { Bindings := { array := 0, off := 0, len := 1, cap := 1 }
        ShowAllColumnCount := 2
        Style := literalStyle }
    arrays := fun _ _ => { mkKey "s" "save" true with Visible := false }
    logged := [] }

/-- A keymap whose only entry carries a temporary description. -/
def overrideKeymap : Keymap :=
  { Bindings := [{ mkKey "s" "save" true with CustomHelpDesc := "tmp" }]
    ShowAllColumnCount := 2
    Style := literalStyle }

/-! ## Shapes of the slice `columns` -/

/-- The closed columns `bs`, each followed by the separator value `v`. -/
def withSeparators (v : String) : List Column → List Column
  | [] => []
  | b :: bs => b :: Column.separator v :: withSeparators v bs

/-- Whether a slice reads column, separator, column, ..., column: it starts and
ends with a closed column and closed columns and separators take turns. -/
def alternates : List Column → Bool
  | [] => false
  | [b] => b.isBlock
  | b :: s :: rest => b.isBlock && !s.isBlock && alternates rest

/-- The number of closed columns of a slice. -/
def blockCount (cols : List Column) : Nat := (cols.filter Column.isBlock).length

/-- The number of separators of a slice. -/
def separatorCount (cols : List Column) : Nat := (cols.filter (fun c => !c.isBlock)).length

/-- The texts held by a builder, in the order they were written, without the
line breaks. -/
def textList : Builder → List String
  | [] => []
  | Piece.newline :: rest => textList rest
  | Piece.text s :: rest => s :: textList rest

/-- The rendered key labels written into a closed column (none for a separator). -/
def Column.keyTexts : Column → List String
  | .block keyStr _ _ => textList keyStr
  | .separator _ => []

/-- The rendered key separators written into a closed column. -/
def Column.sepTexts : Column → List String
  | .block _ sepStr _ => textList sepStr
  | .separator _ => []

/-- The rendered descriptions written into a closed column. -/
def Column.descTexts : Column → List String
  | .block _ _ descStr => textList descStr
  | .separator _ => []

/-- A keymap with column count 0 whose only entry is hidden. -/
def hiddenKeymap : Keymap :=
  { Bindings := [{ mkKey "s" "save" true with Visible := false }]
    ShowAllColumnCount := 0
    Style := literalStyle }

/-! ## The arithmetic `ViewAll` evaluates -/

/-- An arithmetic operation of `ViewAll`: the quotient
`float64(len(keys)) / float64(colCount)` or a remainder `a % b`. -/
inductive ArithOp where
  | quotient (n : Nat) (colCount : Int)
  | modulo (a b : Int)
  deriving DecidableEq, Repr

/-- The remainders the loop of `ViewAll` evaluates from index `i` on: `i % rowCount`
and `(i + 1) % rowCount` in each pass, the first one only when it panics. -/
def viewAllLoopOps (rowCount : Int) : Nat → List Key → List ArithOp
  | _, [] => []
  | i, _ :: rest =>
    if rowCount = 0 then [ArithOp.modulo (i : Int) rowCount]
    else ArithOp.modulo (i : Int) rowCount :: ArithOp.modulo ((i : Int) + 1) rowCount ::
      viewAllLoopOps rowCount (i + 1) rest

/-- The divisions and remainders `ViewAll(keymap, width)` evaluates, in order:
the quotient for `rowCount` before the loop, then the remainders of the loop. -/
def viewAllOps (env : Env) (keymap : Keymap) : List ArithOp :=
  ArithOp.quotient keymap.AllBindings.length keymap.ShowAllColumnCount ::
    viewAllLoopOps (rowCountOf env keymap.AllBindings.length keymap.ShowAllColumnCount) 0
      keymap.AllBindings

/-! ## Program states -/

/-- The zero value of the `Style` struct. -/
def zeroStyle : Style :=
  { EssentialKey := NewStyle
    EssentialKeyDescription := NewStyle
    EssentialKeySeparator := NewStyle
    EssentialKeySeparatorValue := ""
    EssentialColSeparator := NewStyle
    EssentialColSeparatorValue := ""
    FullKey := NewStyle
    FullKeyDescription := NewStyle
    FullKeySeparator := NewStyle
    FullKeySeparatorValue := ""
    FullColSeparator := NewStyle
    FullColSeparatorValue := "" }

/-- The package-level variables at program start (their Go zero values), over a
store of keymaps and their backing arrays. -/
def programStart (heap : Ptr → KeymapStruct) (arrays : Arrays) : Registry :=
  { CurrentContext := ""
    Contexts := none
    ShowAll := false
    previousContext := ""
    defaultStyle := zeroStyle
    heap := heap
    arrays := arrays
    logged := [] }

/-- A style that differs from the literal one by its full column separator. -/
def customStyle : Style := { literalStyle with FullColSeparatorValue := " | " }

/-- The keymap `startKeymap` of `exemple/main.go`: `s` (essential), `esc` (not
essential) and `h` (essential), column count 2. -/
def startKeymap : Keymap :=
  (((((NewKeymap 2).NewKeyBinding (mkBinding "s" "s key") true).SetHelpDesc
    (mkBinding "s" "s key") "switch context").NewKeyBinding (mkBinding "esc" "back") false).SetHelpDesc
    (mkBinding "esc" "back") "quit").NewKeyBinding (mkBinding "h" "help") true

/-- The three strings `ViewEssential` writes for one entry: the styled key label,
the styled key separator and the styled effective description. -/
def essentialEntry (env : Env) (keymap : Keymap) (key : Key) : List String :=
  [env.Render keymap.Style.EssentialKey key.Binding.Help.Key,
   env.Render keymap.Style.EssentialKeySeparator keymap.Style.EssentialKeySeparatorValue,
   env.Render keymap.Style.EssentialKeyDescription key.GetHelpDesc]

/-- A keymap in its default state: every entry visible, no temporary description. -/
abbrev Keymap.InDefaultState (km : Keymap) : Prop :=
  ∀ k ∈ km.Bindings, k.Visible = true ∧ k.CustomHelpDesc = ""

/-- The registry states reached from `Init()` by the operations of the package on
the current context, by the host building keymaps that are not registered, and by
`RegisterContext` of a keymap in default state that shares no entry with another
registered keymap and does not replace the keymap under `CurrentContext` while
that keymap is held under another identifier too. -/
inductive Reachable : Registry → Prop where
  | init (r : Registry) : Reachable (Init r)
  | register (r r1 : Registry) (context : KeymapContext) (p : Ptr) :
      Reachable r → (r.keymap p).InDefaultState →
      (∀ id q, r.lookup id = some (some q) → q ≠ p →
        Slice.Disjoint (r.heap q).Bindings (r.heap p).Bindings) →
      (context ≠ r.CurrentContext ∨
        ∀ id q, id ≠ context → r.lookup id = some (some q) →
          GetCurrentContextKeymap r ≠ some q) →
      RegisterContext r context (some p) = .ok r1 → Reachable r1
  | switch (r : Registry) (context : KeymapContext) :
      Reachable r → Reachable (SwitchContext r context)
  | switchPrevious (r : Registry) : Reachable r → Reachable (SwitchToPreviousContext r)
  | setVisible (r : Registry) (keybind : Binding) (visible : Bool) :
      Reachable r → Reachable (SetKeybindVisible r keybind visible)
  | updateHelpDesc (r : Registry) (keybind : Binding) (desc : String) :
      Reachable r → Reachable (UpdateKeybindHelpDesc r keybind desc)
  | build (r : Registry) (p : Ptr) (km : KeymapStruct) (arrays : Arrays) :
      Reachable r → (∀ id, r.lookup id ≠ some (some p)) →
      (∀ id q, r.lookup id = some (some q) →
        readSlice arrays (r.heap q).Bindings = readSlice r.arrays (r.heap q).Bindings) →
      Reachable { r with heap := Function.update r.heap p km, arrays := arrays }

/-- The program start over a store whose every keymap has a backing array of its
own with one entry `s`, in its state after `NewKeyBinding`. -/
def scenarioStart : Registry :=
  programStart
    (fun p =>
      { Bindings := { array := p, off := 0, len := 1, cap := 1 }
        ShowAllColumnCount := 2
        Style := literalStyle })
    (fun _ _ => mkKey "s" "save" true)

/-- The program start over a store whose keymap structs all share one backing
array with one entry `s`, in its state after `NewKeyBinding` (the struct at
address 1 is a copy `cp := *k0` of the struct at address 0). -/
def sharedStart : Registry :=
  programStart
    (fun _ =>
      { Bindings := { array := 0, off := 0, len := 1, cap := 1 }
        ShowAllColumnCount := 2
        Style := literalStyle })
    (fun _ _ => mkKey "s" "save" true)

/-- The registry after `RegisterContext(context, p)`, for a map that is not nil. -/
def registered (r : Registry) (context : KeymapContext) (p : Ptr) : Registry :=
  match RegisterContext r context (some p) with
  | .ok r1 => r1
  | .error _ => r

/-- The state after `Init()`, two registrations of the keymap at address 0 (under
`"a"` and under `"b"`), `SwitchContext("a")` and the hiding of its entry `s`. -/
def aliasBefore : Except Panic Registry := do
  let r1 ← RegisterContext (Init scenarioStart) "a" (some 0)
  let r2 ← RegisterContext r1 "b" (some 0)
  pure (SetKeybindVisible (SwitchContext r2 "a") (mkBinding "s" "save") false)

/-- The state `aliasBefore` after the keymap at address 1 is registered under `"a"`. -/
def aliasAfter : Except Panic Registry := do
  let r3 ← aliasBefore
  RegisterContext r3 "a" (some 1)

/-- The state after `Init()` over the shared store, the registration of the
keymap at address 0 under `"a"` and of its copy at address 1 under `"b"`,
`SwitchContext("a")` and the hiding of the entry `s` of the current keymap. -/
def sharedScenario : Except Panic Registry := do
  let r1 ← RegisterContext (Init sharedStart) "a" (some 0)
  let r2 ← RegisterContext r1 "b" (some 1)
  pure (SetKeybindVisible (SwitchContext r2 "a") (mkBinding "s" "save") false)

/-- The state after `Init()`, the registration of the keymap at address 0 under
`"a"` and of the keymap at address 1 under `"b"`, `SwitchContext("a")` and the
hiding of the entry `s` of the current keymap. -/
def twoContexts : Registry :=
  SetKeybindVisible
    (SwitchContext (registered (registered (Init scenarioStart) "a" 0) "b" 1) "a")
    (mkBinding "s" "save") false

/-! ## Lemmas on the loops of `type.go` -/

theorem mem_resetLoop {l : List Key} {k : Key} (h : k ∈ resetLoop l) :
    k.Visible = true ∧ k.CustomHelpDesc = "" := by
  induction l with
  | nil => simp [resetLoop] at h
  | cons a rest ih =>
    simp only [resetLoop, List.mem_cons] at h
    rcases h with h | h
    · subst h; exact ⟨rfl, rfl⟩
    · exact ih h

theorem resetLoop_map_Binding (l : List Key) :
    (resetLoop l).map Key.Binding = l.map Key.Binding := by
  induction l with
  | nil => rfl
  | cons a rest ih => simp [resetLoop, ih]

theorem resetLoop_map_Essential (l : List Key) :
    (resetLoop l).map Key.Essential = l.map Key.Essential := by
  induction l with
  | nil => rfl
  | cons a rest ih => simp [resetLoop, ih]

theorem allLoop_eq (l acc : List Key) :
    allLoop l acc = acc ++ l.filter (fun k => k.Visible) := by
  induction l generalizing acc with
  | nil => simp [allLoop]
  | cons a rest ih =>
    cases hv : a.Visible <;> simp [allLoop, hv, ih]

theorem essentialLoop_eq (l acc : List Key) :
    essentialLoop l acc = acc ++ l.filter (fun k => k.Visible && k.Essential) := by
  induction l generalizing acc with
  | nil => simp [essentialLoop]
  | cons a rest ih =>
    cases hv : a.Visible <;> cases he : a.Essential <;> simp [essentialLoop, hv, he, ih]

theorem isVisibleLoop_absent (label : String) (l : List Key)
    (h : ∀ k ∈ l, k.Binding.Help.Key ≠ label) : isVisibleLoop label l = false := by
  induction l with
  | nil => rfl
  | cons a rest ih =>
    have ha : ¬ label = a.Binding.Help.Key := fun e => h a (List.mem_cons_self _ _) e.symm
    simp only [isVisibleLoop, if_neg ha]
    exact ih (fun k hk => h k (List.mem_cons_of_mem _ hk))

theorem updateHelpDescLoop_twice (label x y : String) (l : List Key) :
    updateHelpDescLoop label y (updateHelpDescLoop label x l) = updateHelpDescLoop label y l := by
  induction l with
  | nil => rfl
  | cons a rest ih =>
    by_cases h : label = a.Binding.Help.Key
    · simp [updateHelpDescLoop, h]
    · simp [updateHelpDescLoop, h, ih]

theorem updateHelpDescLoop_find (label y : String) (l : List Key) (k : Key)
    (h : l.find? (fun e => decide (label = e.Binding.Help.Key)) = some k) :
    (updateHelpDescLoop label y l).find? (fun e => decide (label = e.Binding.Help.Key))
      = some { k with CustomHelpDesc := y } := by
  induction l with
  | nil => simp at h
  | cons a rest ih =>
    by_cases ha : label = a.Binding.Help.Key
    · have hk : a = k := by simpa [List.find?, ha] using h
      subst hk
      simp [updateHelpDescLoop, ha, List.find?]
    · have hr : rest.find? (fun e => decide (label = e.Binding.Help.Key)) = some k := by
        simpa [List.find?, ha] using h
      simp [updateHelpDescLoop, ha, List.find?, ih hr]

theorem updateHelpDescLoop_same (label : String) (l : List Key)
    (h : ∀ k, l.find? (fun e => decide (label = e.Binding.Help.Key)) = some k →
      k.CustomHelpDesc = "") :
    updateHelpDescLoop label "" l = l := by
  induction l with
  | nil => rfl
  | cons a rest ih =>
    by_cases ha : label = a.Binding.Help.Key
    · have hc : a.CustomHelpDesc = "" := h a (by simp [List.find?, ha])
      cases a
      simp only [updateHelpDescLoop, if_pos ha]
      simp only at hc
      subst hc
      rfl
    · simp only [updateHelpDescLoop, if_neg ha]
      congr 1
      exact ih (fun k hk => h k (by simpa [List.find?, ha] using hk))

/-! ## Slices and backing arrays -/

theorem length_resetLoop (l : List Key) : (resetLoop l).length = l.length := by
  induction l with
  | nil => rfl
  | cons a rest ih => simp [resetLoop, ih]

theorem length_setVisibleLoop (label : String) (v : Bool) (l : List Key) :
    (setVisibleLoop label v l).length = l.length := by
  induction l with
  | nil => rfl
  | cons a rest ih =>
    by_cases h : label = a.Binding.Help.Key <;> simp [setVisibleLoop, h, ih]

theorem length_updateHelpDescLoop (label desc : String) (l : List Key) :
    (updateHelpDescLoop label desc l).length = l.length := by
  induction l with
  | nil => rfl
  | cons a rest ih =>
    by_cases h : label = a.Binding.Help.Key <;> simp [updateHelpDescLoop, h, ih]

theorem length_readSlice (arrays : Arrays) (s : Slice) : (readSlice arrays s).length = s.len := by
  simp [readSlice]

/-- Reading a slice right after writing it gives the values written. -/
theorem readSlice_writeSlice_same (arrays : Arrays) (s : Slice) (l : List Key)
    (hl : l.length = s.len) : readSlice (writeSlice arrays s l) s = l := by
  apply List.ext_getElem
  · simp [readSlice, hl]
  · intro i h1 h2
    have hi : i < s.len := by simpa [readSlice] using h1
    have hcell : writeSlice arrays s l s.array (s.off + i) = l.getD i (arrays s.array (s.off + i)) := by
      unfold writeSlice
      rw [if_pos ⟨rfl, by omega, by omega⟩]
      congr 1
      omega
    simp only [readSlice, List.getElem_map, List.getElem_range, hcell]
    rw [List.getD_eq_getElem?_getD, List.getElem?_eq_getElem h2]
    rfl

/-- Writing a slice leaves every slice that has no element in common with it as
it was. -/
theorem readSlice_writeSlice_disjoint (arrays : Arrays) (s t : Slice) (l : List Key)
    (h : Slice.Disjoint t s) : readSlice (writeSlice arrays s l) t = readSlice arrays t := by
  apply List.ext_getElem
  · simp [readSlice]
  · intro i h1 h2
    have hi : i < t.len := by simpa [readSlice] using h1
    have hcell : writeSlice arrays s l t.array (t.off + i) = arrays t.array (t.off + i) := by
      unfold writeSlice
      rw [if_neg]
      rintro ⟨ha, hlo, hhi⟩
      rcases h with h | h | h | h | h
      · exact h ha
      · omega
      · omega
      · omega
      · omega
    simp only [readSlice, List.getElem_map, List.getElem_range, hcell]

/-! ## The context registry -/

/-- C1 as stated fails: the keymap structs at addresses 0 and 1 share their
backing array; `SwitchContext`, with the keymap at address 0 current, resets the
shared entry, so the keymap registered under `"b"`, at address 1, changes. -/
theorem SwitchContext_shared_counterexample :
    GetCurrentContextKeymap sharedRegistry = some 0 ∧
    sharedRegistry.lookup "b" = some (some 1) ∧
    (sharedRegistry.keymap 1).Bindings.map Key.Visible = [false] ∧
    ((SwitchContext sharedRegistry "b").keymap 1).Bindings.map Key.Visible = [true] := by
  decide

/-- C1, amended: for every registry and every identifier (registered or not),
`SwitchContext(id)` resets the keymap held under `CurrentContext` before the
call: afterwards it is that keymap after `Reset()`, each of its entries visible
with an empty `CustomHelpDesc`; every keymap that shares no entry with it is
unchanged; the stored structs and the map `Contexts` are unchanged; and when no
keymap was held under `CurrentContext` no entry changes at all. -/
theorem SwitchContext_resets_current (r : Registry) (id : KeymapContext) :
    (∀ p, GetCurrentContextKeymap r = some p →
      (SwitchContext r id).keymap p = (r.keymap p).Reset ∧
      (∀ k ∈ ((SwitchContext r id).keymap p).Bindings,
        k.Visible = true ∧ k.CustomHelpDesc = "") ∧
      (∀ q, Slice.Disjoint (r.heap q).Bindings (r.heap p).Bindings →
        (SwitchContext r id).keymap q = r.keymap q)) ∧
    (GetCurrentContextKeymap r = none → (SwitchContext r id).arrays = r.arrays) ∧
    (SwitchContext r id).heap = r.heap ∧
    (SwitchContext r id).Contexts = r.Contexts := by
  refine ⟨?_, ?_, rfl, rfl⟩
  · intro p hp
    have hreset : (SwitchContext r id).keymap p = (r.keymap p).Reset := by
      simp only [SwitchContext, hp, Registry.keymap, Keymap.Reset]
      rw [readSlice_writeSlice_same _ _ _ (by rw [length_resetLoop, length_readSlice])]
    refine ⟨hreset, ?_, ?_⟩
    · intro k hk
      rw [hreset] at hk
      exact mem_resetLoop hk
    · intro q hq
      simp only [SwitchContext, hp, Registry.keymap]
      rw [readSlice_writeSlice_disjoint _ _ _ _ hq]
  · intro hn
    simp only [SwitchContext, hn]

/-- C1, amended, at the sample registry and an identifier that is not registered:
the current keymap (address 0) is reset and the keymap at address 1, which has a
backing array of its own, is untouched. -/
theorem SwitchContext_resets_current_witness :
    GetCurrentContextKeymap sampleRegistry = some 0 ∧
    (sampleRegistry.keymap 0).Bindings.map (fun k => (k.Visible, k.CustomHelpDesc))
      = [(true, "tmp"), (false, "")] ∧
    (∀ k ∈ ((SwitchContext sampleRegistry "nowhere").keymap 0).Bindings,
      k.Visible = true ∧ k.CustomHelpDesc = "") ∧
    (SwitchContext sampleRegistry "nowhere").keymap 1 = sampleRegistry.keymap 1 :=
  ⟨by decide, by decide,
   ((SwitchContext_resets_current sampleRegistry "nowhere").1 0 (by decide)).2.1,
   ((SwitchContext_resets_current sampleRegistry "nowhere").1 0 (by decide)).2.2 1 (by decide)⟩

/-- C2: for every registry and every identifier, after `SwitchContext(id)` the
variable `previousContext` holds the former `CurrentContext`, `CurrentContext`
holds `id` (registered or not) and `ShowAll` is false; and
`SwitchToPreviousContext` is `SwitchContext(previousContext)`. -/
theorem SwitchContext_pointers (r : Registry) (id : KeymapContext) :
    (SwitchContext r id).previousContext = r.CurrentContext ∧
    (SwitchContext r id).CurrentContext = id ∧
    (SwitchContext r id).ShowAll = false ∧
    SwitchToPreviousContext r = SwitchContext r r.previousContext :=
  ⟨rfl, rfl, rfl, rfl⟩

/-! ## Keymap operations -/

/-- C3: for every keymap, after `Reset()` every entry is visible and its
effective description `GetHelpDesc()` is the default description of its binding;
the number, the order, the bindings (hence the labels) and the `Essential` flags
of the entries are unchanged. -/
theorem Reset_default_state (km : Keymap) :
    (∀ k ∈ km.Reset.Bindings, k.Visible = true ∧ k.GetHelpDesc = k.Binding.Help.Desc) ∧
    km.Reset.Bindings.length = km.Bindings.length ∧
    km.Reset.Bindings.map Key.Binding = km.Bindings.map Key.Binding ∧
    km.Reset.Bindings.map (fun k => k.Binding.Help.Key)
      = km.Bindings.map (fun k => k.Binding.Help.Key) ∧
    km.Reset.Bindings.map Key.Essential = km.Bindings.map Key.Essential := by
  have hb := resetLoop_map_Binding km.Bindings
  refine ⟨?_, ?_, hb, ?_, resetLoop_map_Essential km.Bindings⟩
  · intro k hk
    obtain ⟨hv, hc⟩ := mem_resetLoop hk
    exact ⟨hv, by simp [Key.GetHelpDesc, hc]⟩
  · simpa using congrArg List.length hb
  · have := congrArg (List.map (fun b : Binding => b.Help.Key)) hb
    simpa [List.map_map, Function.comp_def] using this

/-- C3, at the keymap of the sample registry (one hidden entry, one entry with a
temporary description). -/
theorem Reset_default_state_witness :
    (sampleRegistry.keymap 0).Reset.Bindings.map (fun k => (k.Visible, k.GetHelpDesc))
      = [(true, "save"), (true, "back")] ∧
    ∀ k ∈ (sampleRegistry.keymap 0).Reset.Bindings,
      k.Visible = true ∧ k.GetHelpDesc = k.Binding.Help.Desc :=
  ⟨by decide, (Reset_default_state (sampleRegistry.keymap 0)).1⟩

/-- C4 as stated fails: an entry that carries the temporary description `"tmp"`
shows `"tmp"` before `updateHelpDesc(label, "X")` then `updateHelpDesc(label, "")`
and its default description `"save"` after them. -/
theorem updateHelpDesc_roundtrip_counterexample :
    overrideKeymap.Bindings.map (fun k => (k.Binding.Help.Key, k.GetHelpDesc)) = [("s", "tmp")] ∧
    ((overrideKeymap.updateHelpDesc (mkBinding "s" "save") "X").updateHelpDesc
        (mkBinding "s" "save") "").Bindings.map (fun k => (k.Binding.Help.Key, k.GetHelpDesc))
      = [("s", "save")] := by
  decide

/-- C4, amended: after `updateHelpDesc(label, X)` then `updateHelpDesc(label, "")`
the first entry bearing the label has the same binding and shows the default
description of that binding; when it carried no temporary description before the
two calls this is the description it showed before them, and the whole keymap is
as before. -/
theorem updateHelpDesc_roundtrip (km : Keymap) (b : Binding) (X : String) (k : Key)
    (hk : km.Bindings.find? (fun e => decide (b.Help.Key = e.Binding.Help.Key)) = some k) :
    (∃ k1, ((km.updateHelpDesc b X).updateHelpDesc b "").Bindings.find?
          (fun e => decide (b.Help.Key = e.Binding.Help.Key)) = some k1 ∧
        k1.Binding = k.Binding ∧ k1.GetHelpDesc = k.Binding.Help.Desc ∧
        (k.CustomHelpDesc = "" → k1.GetHelpDesc = k.GetHelpDesc)) ∧
    (k.CustomHelpDesc = "" → (km.updateHelpDesc b X).updateHelpDesc b "" = km) := by
  have h2 : ((km.updateHelpDesc b X).updateHelpDesc b "").Bindings
      = updateHelpDescLoop b.Help.Key "" km.Bindings := by
    simp [Keymap.updateHelpDesc, updateHelpDescLoop_twice]
  constructor
  · refine ⟨{ k with CustomHelpDesc := "" }, ?_, rfl, by simp [Key.GetHelpDesc], ?_⟩
    · rw [h2]; exact updateHelpDescLoop_find _ _ _ _ hk
    · intro hc; simp [Key.GetHelpDesc, hc]
  · intro hc
    have h3 : updateHelpDescLoop b.Help.Key "" km.Bindings = km.Bindings :=
      updateHelpDescLoop_same _ _ (fun k2 hk2 => by
        rw [hk] at hk2; cases hk2; exact hc)
    cases km
    simp only [Keymap.updateHelpDesc, updateHelpDescLoop_twice] at h3 ⊢
    simp only [h3]

/-- C4, amended, at a keymap in its state after `NewKeyBinding` (no temporary
description): the two calls leave it as it was. -/
theorem updateHelpDesc_roundtrip_witness :
    (((NewKeymap 2).NewKeyBinding (mkBinding "s" "save") true).updateHelpDesc
        (mkBinding "s" "save") "X").updateHelpDesc (mkBinding "s" "save") ""
      = (NewKeymap 2).NewKeyBinding (mkBinding "s" "save") true :=
  (updateHelpDesc_roundtrip ((NewKeymap 2).NewKeyBinding (mkBinding "s" "save") true)
    (mkBinding "s" "save") "X" (mkKey "s" "save" true) (by decide)).2 (by decide)

/-- C5: `isVisible` returns false for a binding whose label no entry of the
keymap bears; `IsKeybindVisible` returns false when no keymap is held under
`CurrentContext` (absent identifier, nil map or nil pointer) and when the label
is absent from the current keymap. -/
theorem isVisible_absent (km : Keymap) (r : Registry) (b : Binding) :
    ((∀ k ∈ km.Bindings, k.Binding.Help.Key ≠ b.Help.Key) → km.isVisible b = false) ∧
    (r.lookup r.CurrentContext = none ∨ r.lookup r.CurrentContext = some none →
      IsKeybindVisible r b = false) ∧
    (∀ p, r.lookup r.CurrentContext = some (some p) →
      (∀ k ∈ (r.keymap p).Bindings, k.Binding.Help.Key ≠ b.Help.Key) →
      IsKeybindVisible r b = false) := by
  refine ⟨fun h => isVisibleLoop_absent _ _ h, ?_, ?_⟩
  · rintro (h | h) <;> simp [IsKeybindVisible, GetCurrentContextKeymap, h]
  · intro p hp h
    simp only [IsKeybindVisible, GetCurrentContextKeymap, hp]
    exact isVisibleLoop_absent _ _ h

/-- C5, at the sample registry: the label `"zz"` is borne by no entry of the
current keymap, and no keymap is held under `"nowhere"`. -/
theorem isVisible_absent_witness :
    (sampleRegistry.keymap 0).isVisible (mkBinding "zz" "") = false ∧
    IsKeybindVisible (SwitchContext sampleRegistry "nowhere") (mkBinding "s" "save") = false ∧
    IsKeybindVisible sampleRegistry (mkBinding "zz" "") = false :=
  ⟨(isVisible_absent (sampleRegistry.keymap 0) sampleRegistry (mkBinding "zz" "")).1 (by decide),
   (isVisible_absent (sampleRegistry.keymap 0) (SwitchContext sampleRegistry "nowhere")
      (mkBinding "s" "save")).2.1 (Or.inl (by decide)),
   (isVisible_absent (sampleRegistry.keymap 0) sampleRegistry (mkBinding "zz" "")).2.2 0
      (by decide) (by decide)⟩

/-- C6: `AllBindings()` is the entries of `Bindings` with `Visible = true`, in
order, and `EssentialBindings()` is the entries of `AllBindings()` that also have
`Essential = true`, in order; each is a subsequence of the list it is taken from. -/
theorem AllBindings_EssentialBindings_filter (km : Keymap) :
    km.AllBindings = km.Bindings.filter (fun k => k.Visible) ∧
    km.EssentialBindings = km.AllBindings.filter (fun k => k.Essential) ∧
    List.Sublist km.AllBindings km.Bindings ∧
    List.Sublist km.EssentialBindings km.AllBindings := by
  have ha : km.AllBindings = km.Bindings.filter (fun k => k.Visible) := by
    simp [Keymap.AllBindings, allLoop_eq]
  have he : km.EssentialBindings = km.AllBindings.filter (fun k => k.Essential) := by
    rw [ha]
    simp [Keymap.EssentialBindings, essentialLoop_eq, List.filter_filter, Bool.and_comm]
  refine ⟨ha, he, ?_, ?_⟩
  · rw [ha]; exact List.filter_sublist _
  · rw [he]; exact List.filter_sublist _

/-! ## Lemmas on the loop of `ViewAll` -/

theorem texts_writeEntry (b : Builder) (c : Bool) (t : String) :
    Builder.texts (writeEntry b c t) = Builder.texts b + 1 := by
  cases c <;> simp [writeEntry, Builder.texts, List.filter_append]

/-- The three outcomes of one pass of the loop body when the row count is not
zero: the last entry closes the last column; an earlier entry closes a column and
a separator follows; or the entry stays in the open column. -/
theorem viewAllBody_cases (env : Env) (km : Keymap) (n : Nat) (R : Int) (i : Nat) (key : Key)
    (st : ViewAllState) (hR : R ≠ 0) (hi : i < n) :
    ∃ (lb : Bool) (st1 : ViewAllState), viewAllBody env km n R i key st = .ok st1 ∧
      ((i + 1 = n ∧
          st1.columns = st.columns ++
            [Column.block
              (writeEntry st.keyStr lb (env.Render km.Style.FullKey key.Binding.Help.Key))
              (writeEntry st.sepStr lb
                (env.Render km.Style.FullKeySeparator km.Style.FullKeySeparatorValue))
              (writeEntry st.descStr lb
                (env.Render km.Style.FullKeyDescription key.GetHelpDesc))] ∧
          st1.colCount = st.colCount ∧ st1.keyStr = [] ∧ st1.sepStr = [] ∧ st1.descStr = []) ∨
       (i + 1 < n ∧ Int.tmod ((i : Int) + 1) R = 0 ∧ i ≠ 0 ∧
          (st.columns.length : Int) + 1 < st.colCount ∧
          st1.columns = st.columns ++
            [Column.block
              (writeEntry st.keyStr lb (env.Render km.Style.FullKey key.Binding.Help.Key))
              (writeEntry st.sepStr lb
                (env.Render km.Style.FullKeySeparator km.Style.FullKeySeparatorValue))
              (writeEntry st.descStr lb
                (env.Render km.Style.FullKeyDescription key.GetHelpDesc)),
             Column.separator km.Style.FullColSeparatorValue] ∧
          st1.colCount = wrap64 (st.colCount + 1) ∧
          st1.keyStr = [] ∧ st1.sepStr = [] ∧ st1.descStr = []) ∨
       (i + 1 < n ∧ st1.columns = st.columns ∧ st1.colCount = st.colCount ∧
          st1.keyStr = writeEntry st.keyStr lb
            (env.Render km.Style.FullKey key.Binding.Help.Key) ∧
          st1.sepStr = writeEntry st.sepStr lb
            (env.Render km.Style.FullKeySeparator km.Style.FullKeySeparatorValue) ∧
          st1.descStr = writeEntry st.descStr lb
            (env.Render km.Style.FullKeyDescription key.GetHelpDesc))) := by
  refine ⟨decide (Int.tmod (i : Int) R > 0) ||
    (decide ((n : Int) - (i : Int) = 1) && decide ((st.columns.length : Int) + 1 < st.colCount)),
    ?_⟩
  simp only [viewAllBody, goMod, if_neg hR, bind, Except.bind, pure, Except.pure]
  split
  · rename_i hc
    simp only [Bool.or_eq_true, Bool.and_eq_true, decide_eq_true_eq] at hc
    split
    · have h3 : i + 1 < n := by omega
      rcases hc with hc | hc
      · exact ⟨_, rfl, Or.inr (Or.inl ⟨h3, hc.1.1, hc.1.2, hc.2, List.append_assoc _ _ _, rfl, rfl, rfl, rfl⟩)⟩
      · omega
    · have h3 : i + 1 = n := by omega
      exact ⟨_, rfl, Or.inl ⟨h3, rfl, rfl, rfl, rfl, rfl⟩⟩
  · rename_i hc
    have h3 : i + 1 < n := by
      simp only [Bool.or_eq_true, Bool.and_eq_true, decide_eq_true_eq, not_or] at hc
      omega
    exact ⟨_, rfl, Or.inr (Or.inr ⟨h3, rfl, rfl, rfl, rfl, rfl⟩)⟩

theorem viewAllLoop_cons (env : Env) (km : Keymap) (n : Nat) (R : Int) (i : Nat) (key : Key)
    (rest : List Key) (st st1 : ViewAllState)
    (h : viewAllBody env km n R i key st = .ok st1) :
    viewAllLoop env km n R i (key :: rest) st = viewAllLoop env km n R (i + 1) rest st1 := by
  simp only [viewAllLoop, h, bind, Except.bind]

/-- With a row count that is not zero the loop of `ViewAll` runs to its end; when
it has an entry to place its last act is to close a column, and the number of
entries of that column is congruent to the number of entries of the slice modulo
the row count, as long as the open column started at a multiple of the row count. -/
theorem viewAllLoop_last (env : Env) (km : Keymap) (n : Nat) (R : Int) (hR : R ≠ 0) :
    ∀ (rest : List Key) (i : Nat) (st : ViewAllState), rest ≠ [] → i + rest.length = n →
      R ∣ ((i : Int) - (Builder.texts st.keyStr : Int)) →
      ∃ st1 k s d, viewAllLoop env km n R i rest st = .ok st1 ∧
        st1.columns.getLast? = some (Column.block k s d) ∧
        R ∣ ((n : Int) - (Builder.texts k : Int)) := by
  intro rest
  induction rest with
  | nil => intro i st h; exact absurd rfl h
  | cons key tail ih =>
    intro i st _ hlen hdvd
    simp only [List.length_cons] at hlen
    obtain ⟨lb, st1, hb, hcase⟩ := viewAllBody_cases env km n R i key st hR (by omega)
    have htx := texts_writeEntry st.keyStr lb (env.Render km.Style.FullKey key.Binding.Help.Key)
    rw [viewAllLoop_cons env km n R i key tail st st1 hb]
    cases tail with
    | nil =>
      simp only [List.length_nil] at hlen
      rcases hcase with ⟨_, hcols, _⟩ | ⟨hlt, _⟩ | ⟨hlt, _⟩
      · refine ⟨st1, ?_⟩
        rw [hcols]
        refine ⟨_, _, _, rfl, List.getLast?_concat _, ?_⟩
        rw [htx]
        have : (n : Int) - ((Builder.texts st.keyStr + 1 : Nat) : Int)
            = (i : Int) - (Builder.texts st.keyStr : Int) := by omega
        rw [this]; exact hdvd
      · omega
      · omega
    | cons key2 tail2 =>
      simp only [List.length_cons] at hlen
      apply ih (i + 1) st1 (by simp) (by simp only [List.length_cons]; omega)
      rcases hcase with ⟨hlt, _⟩ | ⟨_, hmod, _, _, _, _, hk, _⟩ | ⟨_, _, _, hk, _⟩
      · omega
      · rw [hk]
        have := Int.dvd_of_tmod_eq_zero hmod
        simpa [Builder.texts] using this
      · rw [hk, htx]
        have : (((i + 1 : Nat) : Int) - ((Builder.texts st.keyStr + 1 : Nat) : Int))
            = (i : Int) - (Builder.texts st.keyStr : Int) := by omega
        rw [this]; exact hdvd


theorem rowCountOf_pos (env : Env) (n : Nat) (c : Int) (hc : 1 ≤ c) (hn : 1 ≤ n) :
    1 ≤ rowCountOf env n c := by
  have hc0 : c ≠ 0 := by omega
  have h := @Int.fdiv_neg' (-(n : Int)) c (by omega) (by omega)
  simp only [rowCountOf, if_neg hc0]
  omega

theorem rowCountOf_zero_entries (env : Env) (c : Int) (hc : c ≠ 0) : rowCountOf env 0 c = 0 := by
  simp [rowCountOf, hc, Int.fdiv]

theorem rowCountOf_neg (env : Env) (n : Nat) (c : Int) (hc : c < 0) (hn : -c ≤ (n : Int)) :
    rowCountOf env n c ≤ -1 := by
  have hc0 : c ≠ 0 := by omega
  simp only [rowCountOf, if_neg hc0]
  obtain ⟨k, rfl⟩ : ∃ k : Nat, c = Int.negSucc k := ⟨(-c - 1).toNat, by
    rw [Int.negSucc_eq]; omega⟩
  obtain ⟨m, rfl⟩ : ∃ m : Nat, n = m + 1 := ⟨n - 1, by
    rw [Int.negSucc_eq] at hn; omega⟩
  have hneg : -(((m + 1 : Nat)) : Int) = Int.negSucc m := by
    rw [Int.negSucc_eq]; push_cast; ring
  rw [hneg]
  simp only [Int.fdiv]
  have hkm : k + 1 ≤ m + 1 := by
    rw [Int.negSucc_eq] at hn; omega
  have : 1 ≤ (m + 1) / (k + 1) := Nat.div_pos hkm (by omega)
  have h2 : ((((m + 1) / (k + 1) : Nat)) : Int) ≥ 1 := by exact_mod_cast this
  simp only [Nat.succ_eq_add_one, Int.ofNat_eq_coe]
  omega

/-- The integer ceiling used for the row count is the ceiling of the rational
quotient of the slice length by the column count. -/
theorem rowCountOf_eq_ceil (env : Env) (n : Nat) (c : Int) (hc : c ≠ 0) :
    rowCountOf env n c = ⌈((n : Int) : ℚ) / (c : ℚ)⌉ := by
  simp only [rowCountOf, if_neg hc]
  rw [show ((n : Int) : ℚ) / (c : ℚ) = -(((-(n : Int) : Int) : ℚ) / (c : ℚ)) by push_cast; ring]
  rw [Int.ceil_neg]
  congr 1
  rcases lt_or_gt_of_ne hc with hneg | hpos
  · obtain ⟨k, rfl⟩ : ∃ k : Nat, c = Int.negSucc k := ⟨(-c - 1).toNat, by
      rw [Int.negSucc_eq]; omega⟩
    cases n with
    | zero => simp
    | succ m =>
      have hn : -(((m + 1 : Nat)) : Int) = Int.negSucc m := by
        rw [Int.negSucc_eq]; push_cast; ring
      rw [hn]
      simp only [Int.fdiv]
      have h := Rat.floor_intCast_div_natCast ((m + 1 : Nat) : Int) (k + 1)
      rw [show ((Int.negSucc m : Int) : ℚ) / ((Int.negSucc k : Int) : ℚ)
          = ((((m + 1 : Nat) : Int)) : ℚ) / (((k + 1 : Nat)) : ℚ) by
        rw [Int.negSucc_eq, Int.negSucc_eq]; push_cast; rw [neg_div_neg_eq]]
      rw [h]
      simp
  · obtain ⟨d, rfl⟩ : ∃ d : Nat, c = (d : Int) := ⟨c.toNat, by omega⟩
    rw [Int.fdiv_eq_ediv _ (by omega)]
    exact (Rat.floor_intCast_div_natCast (-(n : Int)) d).symm


theorem viewAllBody_ok (env : Env) (km : Keymap) (n : Nat) (R : Int) (i : Nat) (key : Key)
    (st : ViewAllState) (hR : R ≠ 0) :
    ∃ st1, viewAllBody env km n R i key st = .ok st1 := by
  simp only [viewAllBody, goMod, if_neg hR, bind, Except.bind, pure, Except.pure]
  split <;> [split; skip] <;> exact ⟨_, rfl⟩

/-- With a row count that is not zero the loop of `ViewAll` raises no panic. -/
theorem viewAllLoop_ok (env : Env) (km : Keymap) (n : Nat) (R : Int) (hR : R ≠ 0) :
    ∀ (rest : List Key) (i : Nat) (st : ViewAllState),
      ∃ st1, viewAllLoop env km n R i rest st = .ok st1 := by
  intro rest
  induction rest with
  | nil => intro i st; exact ⟨st, rfl⟩
  | cons key tail ih =>
    intro i st
    obtain ⟨st1, hb⟩ := viewAllBody_ok env km n R i key st hR
    rw [viewAllLoop_cons env km n R i key tail st st1 hb]
    exact ih (i + 1) st1

/-- A zero row count makes the first pass of the loop of `ViewAll` panic. -/
theorem viewAllLoop_zero (env : Env) (km : Keymap) (n : Nat) (i : Nat) (key : Key)
    (rest : List Key) (st : ViewAllState) :
    viewAllLoop env km n 0 i (key :: rest) st = .error Panic.integerDivideByZero := by
  simp [viewAllLoop, viewAllBody, goMod, bind, Except.bind]

theorem withSeparators_append (v : String) (bs : List Column) (b : Column) :
    withSeparators v (bs ++ [b]) = withSeparators v bs ++ [b, Column.separator v] := by
  induction bs with
  | nil => rfl
  | cons a rest ih => simp [withSeparators, ih]

theorem length_withSeparators (v : String) (bs : List Column) :
    (withSeparators v bs).length = 2 * bs.length := by
  induction bs with
  | nil => rfl
  | cons a rest ih => simp only [withSeparators, List.length_cons, ih]; omega

/-- A slice made of closed columns, each followed by a separator, and one more
closed column alternates, and holds one separator less than closed columns. -/
theorem withSeparators_shape (v : String) (bs : List Column) (b : Column)
    (hbs : ∀ x ∈ bs, x.isBlock = true) (hb : b.isBlock = true) :
    alternates (withSeparators v bs ++ [b]) = true ∧
    blockCount (withSeparators v bs ++ [b]) = bs.length + 1 ∧
    separatorCount (withSeparators v bs ++ [b]) = bs.length ∧
    (∀ x ∈ withSeparators v bs ++ [b], x.isBlock = false → x = Column.separator v) := by
  induction bs with
  | nil =>
    refine ⟨by simpa [withSeparators, alternates] using hb,
      by simp [withSeparators, blockCount, hb],
      by simp [withSeparators, separatorCount, hb], ?_⟩
    intro x hx hxb
    simp only [withSeparators, List.nil_append, List.mem_singleton] at hx
    subst hx; rw [hb] at hxb; cases hxb
  | cons a rest ih =>
    have ha : a.isBlock = true := hbs a (List.mem_cons_self _ _)
    have hsep : (Column.separator v).isBlock = false := rfl
    obtain ⟨h1, h2, h3, h4⟩ := ih (fun x hx => hbs x (List.mem_cons_of_mem _ hx))
    refine ⟨?_, ?_, ?_, ?_⟩
    · show (a.isBlock && !(Column.separator v).isBlock &&
        alternates (withSeparators v rest ++ [b])) = true
      rw [ha, h1]; rfl
    · simp only [blockCount] at h2 ⊢
      show (List.filter Column.isBlock
        (a :: Column.separator v :: (withSeparators v rest ++ [b]))).length = rest.length + 1 + 1
      rw [List.filter_cons_of_pos ha, List.filter_cons_of_neg (by simp [hsep]),
        List.length_cons, h2]
    · simp only [separatorCount] at h3 ⊢
      show (List.filter (fun c => !c.isBlock)
        (a :: Column.separator v :: (withSeparators v rest ++ [b]))).length = rest.length + 1
      rw [List.filter_cons_of_neg (by simp [ha]), List.filter_cons_of_pos (by simp [hsep]),
        List.length_cons, h3]
    · intro x hx hxb
      simp only [withSeparators, List.cons_append, List.mem_cons] at hx
      rcases hx with hx | hx | hx
      · subst hx; rw [ha] at hxb; cases hxb
      · exact hx
      · exact h4 x hx hxb

/-- The shape of the slice `columns` along the loop of `ViewAll`: while the loop
runs it holds closed columns each followed by a separator, fewer of them than the
column count; at the end it holds one more closed column. -/
theorem viewAllLoop_shape (env : Env) (km : Keymap) (n : Nat) (R : Int) (c : Int) (hR : R ≠ 0) :
    ∀ (rest : List Key) (i : Nat) (st : ViewAllState) (bs : List Column),
      rest ≠ [] → i + rest.length = n →
      (∀ x ∈ bs, x.isBlock = true) →
      st.columns = withSeparators km.Style.FullColSeparatorValue bs →
      (bs.length : Int) < c → st.colCount ≤ c + (bs.length : Int) →
      ∃ st1 bs1 b, viewAllLoop env km n R i rest st = .ok st1 ∧
        st1.columns = withSeparators km.Style.FullColSeparatorValue bs1 ++ [b] ∧
        (∀ x ∈ bs1, x.isBlock = true) ∧ b.isBlock = true ∧ (bs1.length : Int) < c := by
  intro rest
  induction rest with
  | nil => intro i st bs h; exact absurd rfl h
  | cons key tail ih =>
    intro i st bs _ hlen hbs hcols hlt hcc
    simp only [List.length_cons] at hlen
    obtain ⟨lb, st1, hb, hcase⟩ := viewAllBody_cases env km n R i key st hR (by omega)
    rw [viewAllLoop_cons env km n R i key tail st st1 hb]
    cases tail with
    | nil =>
      simp only [List.length_nil] at hlen
      rcases hcase with ⟨_, hc1, _⟩ | ⟨h, _⟩ | ⟨h, _⟩
      · rw [hcols] at hc1
        exact ⟨st1, bs, _, rfl, hc1, hbs, rfl, hlt⟩
      · omega
      · omega
    | cons key2 tail2 =>
      simp only [List.length_cons] at hlen
      rcases hcase with ⟨h, _⟩ | ⟨_, _, _, hnl, hc1, hcc1, _⟩ | ⟨_, hc1, hcc1, _⟩
      · omega
      · have hlen2 : (st.columns.length : Int) = 2 * (bs.length : Int) := by
          rw [hcols, length_withSeparators]; push_cast; ring
        have hw : wrap64 (st.colCount + 1) ≤ st.colCount + 1 := by
          unfold wrap64; omega
        apply ih (i + 1) st1
          (bs ++ [Column.block
            (writeEntry st.keyStr lb (env.Render km.Style.FullKey key.Binding.Help.Key))
            (writeEntry st.sepStr lb
              (env.Render km.Style.FullKeySeparator km.Style.FullKeySeparatorValue))
            (writeEntry st.descStr lb
              (env.Render km.Style.FullKeyDescription key.GetHelpDesc))])
          (by simp) (by simp only [List.length_cons]; omega)
        · intro x hx
          rcases List.mem_append.mp hx with hx | hx
          · exact hbs x hx
          · simp only [List.mem_singleton] at hx; subst hx; rfl
        · rw [hc1, hcols, withSeparators_append]
        · simp only [List.length_append, List.length_singleton]; push_cast; omega
        · simp only [List.length_append, List.length_singleton]; push_cast; omega
      · exact ih (i + 1) st1 bs (by simp) (by simp only [List.length_cons]; omega) hbs
          (by rw [hc1, hcols]) hlt (by rw [hcc1]; exact hcc)


/-! ## The full grid -/

/-- C7 as stated fails: with column count 2 and 3 visible entries the row count
is 2, more than one column is asked for, there are more entries than rows, and
yet the last column that `ViewAll` closes holds exactly one entry. -/
theorem ViewAll_last_column_single_counterexample :
    (sampleKeymap 2 3).ShowAllColumnCount = 2 ∧
    (sampleKeymap 2 3).AllBindings.length = 3 ∧
    rowCountOf sampleEnv 3 2 = 2 ∧
    ViewAllColumns sampleEnv (sampleKeymap 2 3) = .ok
      [Column.block [Piece.text "a", Piece.newline, Piece.text "b"]
         [Piece.text " - ", Piece.newline, Piece.text " - "]
         [Piece.text "A", Piece.newline, Piece.text "B"],
       Column.separator "   ",
       Column.block [Piece.text "c"] [Piece.text " - "] [Piece.text "C"]] ∧
    (Column.block [Piece.text "c"] [Piece.text " - "] [Piece.text "C"]).entries = 1 := by
  refine ⟨rfl, rfl, rfl, ?_, rfl⟩
  rfl

/-- With two visible entries and a row count of 1 (column count at least 2) the
loop of `ViewAll` closes one column only, which holds both entries, the second on
a line of its own. -/
theorem ViewAllColumns_two_entries (env : Env) (km : Keymap) (a b : Key)
    (hkeys : km.AllBindings = [a, b]) (hc : 1 < km.ShowAllColumnCount)
    (hR : rowCountOf env 2 km.ShowAllColumnCount = 1) :
    ViewAllColumns env km = .ok
      [Column.block
         [Piece.text (env.Render km.Style.FullKey a.Binding.Help.Key), Piece.newline,
          Piece.text (env.Render km.Style.FullKey b.Binding.Help.Key)]
         [Piece.text (env.Render km.Style.FullKeySeparator km.Style.FullKeySeparatorValue),
          Piece.newline,
          Piece.text (env.Render km.Style.FullKeySeparator km.Style.FullKeySeparatorValue)]
         [Piece.text (env.Render km.Style.FullKeyDescription a.GetHelpDesc), Piece.newline,
          Piece.text (env.Render km.Style.FullKeyDescription b.GetHelpDesc)]] := by
  have hR2 : rowCountOf env [a, b].length km.ShowAllColumnCount = 1 := hR
  have t0 : Int.tmod 0 1 = 0 := by decide
  have t1 : Int.tmod 1 1 = 0 := by decide
  have t2 : Int.tmod 2 1 = 0 := by decide
  simp only [ViewAllColumns, hkeys, hR2]
  simp [viewAllLoop, viewAllBody, goMod, writeEntry, t0, t1, t2, hc, bind, Except.bind, pure,
    Except.pure]

/-- C7, amended: for every keymap with column count `c > 1` and `n` visible
entries, where `rowCount = ceil(n / c)` and `n > rowCount`, if `n = 2` or `n - 1`
is not a multiple of `rowCount` then `ViewAll` returns and the last element of
its slice is a closed column that does not hold exactly one entry. -/
theorem ViewAll_last_column_not_single (env : Env) (km : Keymap)
    (hc : 1 < km.ShowAllColumnCount)
    (hn : rowCountOf env km.AllBindings.length km.ShowAllColumnCount
      < (km.AllBindings.length : Int))
    (hmod : km.AllBindings.length = 2 ∨
      ((km.AllBindings.length : Int) - 1)
        % rowCountOf env km.AllBindings.length km.ShowAllColumnCount ≠ 0) :
    ∃ cols last, ViewAllColumns env km = .ok cols ∧ cols.getLast? = some last ∧
      last.isBlock = true ∧ last.entries ≠ 1 := by
  have hc0 : km.ShowAllColumnCount ≠ 0 := by omega
  have hn1 : 1 ≤ km.AllBindings.length := by
    rcases Nat.eq_zero_or_pos km.AllBindings.length with h0 | h0
    · rw [h0, rowCountOf_zero_entries env _ hc0] at hn
      simp at hn
    · exact h0
  have hR := rowCountOf_pos env km.AllBindings.length km.ShowAllColumnCount (by omega) hn1
  rcases hmod with h2 | hmod
  · have hR1 : rowCountOf env 2 km.ShowAllColumnCount = 1 := by
      rw [h2] at hR hn
      have hn2 : rowCountOf env 2 km.ShowAllColumnCount < 2 := by exact_mod_cast hn
      omega
    obtain ⟨a, b, hkeys⟩ : ∃ a b, km.AllBindings = [a, b] := by
      match hk : km.AllBindings, h2 with
      | [a, b], _ => exact ⟨a, b, rfl⟩
      | [], h => rw [hk] at h2; simp at h2
      | [_], h => rw [hk] at h2; simp at h2
      | _ :: _ :: _ :: _, h => rw [hk] at h2; simp at h2
    refine ⟨_, _, ViewAllColumns_two_entries env km a b hkeys hc hR1, rfl, rfl, ?_⟩
    simp [Column.entries, Builder.texts]
  · have hne : km.AllBindings ≠ [] := by
      intro h; rw [h] at hn1; simp at hn1
    obtain ⟨st1, k, s, d, hloop, hlast, hdvd⟩ :=
      viewAllLoop_last env km km.AllBindings.length
        (rowCountOf env km.AllBindings.length km.ShowAllColumnCount) (by omega)
        km.AllBindings 0
        { columns := [], colCount := km.ShowAllColumnCount, keyStr := [], sepStr := [],
          descStr := [] }
        hne (by simp) (by simp [Builder.texts])
    refine ⟨st1.columns, Column.block k s d, ?_, hlast, rfl, ?_⟩
    · simp only [ViewAllColumns, hloop, bind, Except.bind, pure, Except.pure]
    · intro h1
      simp only [Column.entries] at h1
      rw [h1] at hdvd
      exact hmod (Int.emod_eq_zero_of_dvd (by simpa using hdvd))

/-- C7, amended, at column count 2 and 5 visible entries (row count 3), and at
column count 3 and 2 visible entries (row count 1). -/
theorem ViewAll_last_column_not_single_witness :
    (∃ cols last, ViewAllColumns sampleEnv (sampleKeymap 2 5) = .ok cols ∧
      cols.getLast? = some last ∧ last.isBlock = true ∧ last.entries ≠ 1) ∧
    (∃ cols last, ViewAllColumns sampleEnv (sampleKeymap 3 2) = .ok cols ∧
      cols.getLast? = some last ∧ last.isBlock = true ∧ last.entries ≠ 1) :=
  ⟨ViewAll_last_column_not_single sampleEnv (sampleKeymap 2 5) (by decide) (by decide)
    (Or.inr (by decide)),
   ViewAll_last_column_not_single sampleEnv (sampleKeymap 3 2) (by decide) (by decide)
    (Or.inl (by decide))⟩

/-- C8: for every keymap with exactly 5 visible entries and column count 2,
`ViewAll` closes exactly two columns with one separator between them; the first
holds entries 1 to 3 and the second entries 4 and 5, each entry on a line of its
own in each of the three builders. -/
theorem ViewAll_five_entries_two_columns (env : Env) (km : Keymap) (a b c d e : Key)
    (hkeys : km.AllBindings = [a, b, c, d, e]) (hc : km.ShowAllColumnCount = 2) :
    ViewAllColumns env km = .ok
      [Column.block
         [Piece.text (env.Render km.Style.FullKey a.Binding.Help.Key), Piece.newline,
          Piece.text (env.Render km.Style.FullKey b.Binding.Help.Key), Piece.newline,
          Piece.text (env.Render km.Style.FullKey c.Binding.Help.Key)]
         [Piece.text (env.Render km.Style.FullKeySeparator km.Style.FullKeySeparatorValue),
          Piece.newline,
          Piece.text (env.Render km.Style.FullKeySeparator km.Style.FullKeySeparatorValue),
          Piece.newline,
          Piece.text (env.Render km.Style.FullKeySeparator km.Style.FullKeySeparatorValue)]
         [Piece.text (env.Render km.Style.FullKeyDescription a.GetHelpDesc), Piece.newline,
          Piece.text (env.Render km.Style.FullKeyDescription b.GetHelpDesc), Piece.newline,
          Piece.text (env.Render km.Style.FullKeyDescription c.GetHelpDesc)],
       Column.separator km.Style.FullColSeparatorValue,
       Column.block
         [Piece.text (env.Render km.Style.FullKey d.Binding.Help.Key), Piece.newline,
          Piece.text (env.Render km.Style.FullKey e.Binding.Help.Key)]
         [Piece.text (env.Render km.Style.FullKeySeparator km.Style.FullKeySeparatorValue),
          Piece.newline,
          Piece.text (env.Render km.Style.FullKeySeparator km.Style.FullKeySeparatorValue)]
         [Piece.text (env.Render km.Style.FullKeyDescription d.GetHelpDesc), Piece.newline,
          Piece.text (env.Render km.Style.FullKeyDescription e.GetHelpDesc)]] := by
  have hR : rowCountOf env [a, b, c, d, e].length 2 = 3 := by
    show (if (2 : Int) = 0 then _ else -(Int.fdiv (-((5 : Nat) : Int)) 2)) = 3
    rw [if_neg (by decide)]; decide
  have t0 : Int.tmod 0 3 = 0 := by decide
  have t1 : Int.tmod 1 3 = 1 := by decide
  have t2 : Int.tmod 2 3 = 2 := by decide
  have t3 : Int.tmod 3 3 = 0 := by decide
  have t4 : Int.tmod 4 3 = 1 := by decide
  have t5 : Int.tmod 5 3 = 2 := by decide
  have hw : wrap64 3 = 3 := by decide
  simp only [ViewAllColumns, hkeys, hc, hR]
  simp [viewAllLoop, viewAllBody, goMod, writeEntry, hw, t0, t1, t2, t3, t4, t5, bind,
    Except.bind, pure, Except.pure]

/-- C8, at the sample keymap of 5 visible entries with column count 2. -/
theorem ViewAll_five_entries_two_columns_witness :
    (ViewAllColumns sampleEnv (sampleKeymap 2 5)).toOption.map (List.map Column.entries)
      = some [3, 0, 2] :=
  congrArg (fun r => r.toOption.map (List.map Column.entries))
    (ViewAll_five_entries_two_columns sampleEnv (sampleKeymap 2 5)
      (mkKey "a" "A" false) (mkKey "b" "B" false) (mkKey "c" "C" false)
      (mkKey "d" "D" false) (mkKey "e" "E" false) (by decide) (by decide))

/-- C9: for every keymap with column count `c ≥ 1` and at least one visible
entry, `ViewAll` returns the join of a slice that reads column, separator,
column, ..., column: `k` closed columns with `1 ≤ k ≤ c`, exactly `k - 1`
separators, each of them the column separator value, and a closed column last. -/
theorem ViewAll_columns_alternate (env : Env) (km : Keymap) (width : Int)
    (hc : 1 ≤ km.ShowAllColumnCount) (hn : 1 ≤ km.AllBindings.length) :
    ∃ cols, ViewAllColumns env km = .ok cols ∧
      ViewAll env km width = .ok (env.JoinHorizontal Position.Top (cols.map (Column.str env))) ∧
      alternates cols = true ∧
      1 ≤ blockCount cols ∧ (blockCount cols : Int) ≤ km.ShowAllColumnCount ∧
      separatorCount cols + 1 = blockCount cols ∧
      (∀ x ∈ cols, x.isBlock = false → x = Column.separator km.Style.FullColSeparatorValue) ∧
      (cols.getLast?.map Column.isBlock = some true) := by
  have hR := rowCountOf_pos env km.AllBindings.length km.ShowAllColumnCount hc hn
  have hne : km.AllBindings ≠ [] := by
    intro h; rw [h] at hn; simp at hn
  obtain ⟨st1, bs1, b, hloop, hcols, hbs, hb, hlt⟩ :=
    viewAllLoop_shape env km km.AllBindings.length
      (rowCountOf env km.AllBindings.length km.ShowAllColumnCount) km.ShowAllColumnCount
      (by omega) km.AllBindings 0
      { columns := [], colCount := km.ShowAllColumnCount, keyStr := [], sepStr := [],
        descStr := [] }
      [] hne (by simp) (by simp) rfl (by simp; omega) (by simp)
  obtain ⟨h1, h2, h3, h4⟩ := withSeparators_shape km.Style.FullColSeparatorValue bs1 b hbs hb
  have hcolumns : ViewAllColumns env km = .ok st1.columns := by
    simp only [ViewAllColumns, hloop, bind, Except.bind, pure, Except.pure]
  refine ⟨st1.columns, hcolumns, ?_, ?_, ?_, ?_, ?_, ?_, ?_⟩
  · simp only [ViewAll, hcolumns, bind, Except.bind, pure, Except.pure]
  · rw [hcols]; exact h1
  · rw [hcols, h2]; omega
  · rw [hcols, h2]; push_cast; omega
  · rw [hcols, h2, h3]
  · rw [hcols]; exact h4
  · rw [hcols, List.getLast?_concat]; simp [hb]

/-- C9, at the sample keymap of 5 visible entries with column count 3. -/
theorem ViewAll_columns_alternate_witness :
    ∃ cols, ViewAllColumns sampleEnv (sampleKeymap 3 5) = .ok cols ∧
      ViewAll sampleEnv (sampleKeymap 3 5) 80
        = .ok (sampleEnv.JoinHorizontal Position.Top (cols.map (Column.str sampleEnv))) ∧
      alternates cols = true ∧
      1 ≤ blockCount cols ∧ (blockCount cols : Int) ≤ (sampleKeymap 3 5).ShowAllColumnCount ∧
      separatorCount cols + 1 = blockCount cols ∧
      (∀ x ∈ cols, x.isBlock = false →
        x = Column.separator (sampleKeymap 3 5).Style.FullColSeparatorValue) ∧
      (cols.getLast?.map Column.isBlock = some true) :=
  ViewAll_columns_alternate sampleEnv (sampleKeymap 3 5) 80 (by decide) (by decide)

/-- C10 as stated fails: a keymap made by `NewKeymap(-2)` with one visible entry
is accepted, its row count is 0, and `ViewAll` panics on the modulo by zero. -/
theorem ViewAll_nonpositive_count_counterexample :
    negativeKeymap.ShowAllColumnCount = -2 ∧
    negativeKeymap.AllBindings.length = 1 ∧
    rowCountOf sampleEnv negativeKeymap.AllBindings.length negativeKeymap.ShowAllColumnCount = 0 ∧
    ViewAllColumns sampleEnv negativeKeymap = .error Panic.integerDivideByZero ∧
    ViewAll sampleEnv negativeKeymap 80 = .error Panic.integerDivideByZero := by
  refine ⟨rfl, rfl, rfl, rfl, rfl⟩

/-- C10, amended: no column count is rejected, `NewKeymap` stores the count it is
given; for a negative column count `c` and `n ≥ -c` visible entries the row count
is not zero and `ViewAll` returns without a modulo by zero; for a zero column
count and at least one visible entry the row count is the conversion of `+Inf`,
and `ViewAll` returns when that value is not zero. -/
theorem ViewAll_nonpositive_count (env : Env) (km : Keymap) (c : Int) (width : Int) :
    (NewKeymap c).ShowAllColumnCount = c ∧
    (km.ShowAllColumnCount < 0 → -km.ShowAllColumnCount ≤ (km.AllBindings.length : Int) →
      rowCountOf env km.AllBindings.length km.ShowAllColumnCount ≠ 0 ∧
      ∃ s, ViewAll env km width = .ok s) ∧
    (km.ShowAllColumnCount = 0 → 1 ≤ km.AllBindings.length → env.intOfPosInf ≠ 0 →
      rowCountOf env km.AllBindings.length km.ShowAllColumnCount = env.intOfPosInf ∧
      ∃ s, ViewAll env km width = .ok s) := by
  have hret : rowCountOf env km.AllBindings.length km.ShowAllColumnCount ≠ 0 →
      ∃ s, ViewAll env km width = .ok s := by
    intro hR
    obtain ⟨st1, hloop⟩ := viewAllLoop_ok env km km.AllBindings.length _ hR km.AllBindings 0
      { columns := [], colCount := km.ShowAllColumnCount, keyStr := [], sepStr := [],
        descStr := [] }
    refine ⟨env.JoinHorizontal Position.Top (st1.columns.map (Column.str env)), ?_⟩
    simp only [ViewAll, ViewAllColumns, hloop, bind, Except.bind, pure, Except.pure]
  refine ⟨rfl, ?_, ?_⟩
  · intro hneg hle
    have hR := rowCountOf_neg env km.AllBindings.length km.ShowAllColumnCount hneg hle
    have hR0 : rowCountOf env km.AllBindings.length km.ShowAllColumnCount ≠ 0 := by omega
    exact ⟨hR0, hret hR0⟩
  · intro hz hn hinf
    have hR : rowCountOf env km.AllBindings.length km.ShowAllColumnCount = env.intOfPosInf := by
      have hn0 : km.AllBindings.length ≠ 0 := by omega
      simp [rowCountOf, hz, hn0]
    exact ⟨hR, hret (by rw [hR]; exact hinf)⟩

/-- C10, amended, at column count -2 and 3 visible entries (row count -1), and
at column count 0 and 3 visible entries on amd64. -/
theorem ViewAll_nonpositive_count_witness :
    (NewKeymap (-2)).ShowAllColumnCount = -2 ∧
    (∃ s, ViewAll sampleEnv (sampleKeymap (-2) 3) 80 = .ok s) ∧
    (∃ s, ViewAll sampleEnv (sampleKeymap 0 3) 80 = .ok s) :=
  ⟨(ViewAll_nonpositive_count sampleEnv (sampleKeymap (-2) 3) (-2) 80).1,
   ((ViewAll_nonpositive_count sampleEnv (sampleKeymap (-2) 3) (-2) 80).2.1
      (by decide) (by decide)).2,
   ((ViewAll_nonpositive_count sampleEnv (sampleKeymap 0 3) (-2) 80).2.2
      (by decide) (by decide) (by decide)).2⟩



/-! ## Lemmas on the arithmetic of `ViewAll` -/

theorem AllBindings_eq_nil (km : Keymap) (h : ∀ k ∈ km.Bindings, k.Visible = false) :
    km.AllBindings = [] := by
  simp only [Keymap.AllBindings, allLoop_eq, List.nil_append]
  rw [List.filter_eq_nil_iff]
  intro k hk
  simp [h k hk]

theorem viewAllLoopOps_modulus (R : Int) :
    ∀ (rest : List Key) (i : Nat) (op : ArithOp), op ∈ viewAllLoopOps R i rest →
      ∃ a, op = ArithOp.modulo a R := by
  intro rest
  induction rest with
  | nil => intro i op h; simp [viewAllLoopOps] at h
  | cons key tail ih =>
    intro i op h
    by_cases hR : R = 0
    · simp only [viewAllLoopOps, if_pos hR, List.mem_singleton] at h
      exact ⟨_, h⟩
    · simp only [viewAllLoopOps, if_neg hR, List.mem_cons] at h
      rcases h with h | h | h
      · exact ⟨_, h⟩
      · exact ⟨_, h⟩
      · exact ih _ _ h

/-- The trace of remainders agrees with the model of `ViewAll`: a remainder by
zero is in the trace exactly when `ViewAll` panics. -/
theorem viewAllOps_modulo_zero_iff (env : Env) (km : Keymap) :
    (∃ a, ArithOp.modulo a 0 ∈ viewAllOps env km) ↔
      ViewAllColumns env km = .error Panic.integerDivideByZero := by
  constructor
  · rintro ⟨a, ha⟩
    simp only [viewAllOps, List.mem_cons] at ha
    rcases ha with ha | ha
    · cases ha
    · obtain ⟨b, hb⟩ := viewAllLoopOps_modulus _ _ _ _ ha
      have hR : rowCountOf env km.AllBindings.length km.ShowAllColumnCount = 0 := by
        injection hb with _ h2; exact h2.symm
      cases hkeys : km.AllBindings with
      | nil => rw [hkeys] at ha; simp [viewAllLoopOps] at ha
      | cons key rest =>
        simp only [ViewAllColumns]
        rw [hR, hkeys, viewAllLoop_zero]
        rfl
  · intro h
    by_cases hR : rowCountOf env km.AllBindings.length km.ShowAllColumnCount = 0
    · cases hkeys : km.AllBindings with
      | nil =>
        simp [ViewAllColumns, hkeys, viewAllLoop, bind, Except.bind, pure, Except.pure] at h
      | cons key rest =>
        refine ⟨0, ?_⟩
        simp only [viewAllOps]
        rw [hR, hkeys]
        simp [viewAllLoopOps]
    · obtain ⟨st1, hloop⟩ := viewAllLoop_ok env km km.AllBindings.length _ hR km.AllBindings 0
        { columns := [], colCount := km.ShowAllColumnCount, keyStr := [], sepStr := [],
          descStr := [] }
      simp [ViewAllColumns, hloop, bind, Except.bind, pure, Except.pure] at h

/-! ## The full grid: empty input and safety -/

/-- C11 as stated fails: for a keymap with no entry and column count 2, `ViewAll`
still evaluates the quotient `float64(0) / float64(2)` for `rowCount`. -/
theorem ViewAll_no_entry_counterexample :
    (sampleKeymap 2 0).AllBindings = [] ∧
    viewAllOps sampleEnv (sampleKeymap 2 0) = [ArithOp.quotient 0 2] := by
  decide

/-- C11, amended: for every keymap with no visible entry (empty, or every entry
hidden) and every column count, `ViewAll` closes no column and no separator and
returns the join of no string, which is the empty string as `lipgloss` joins; the
quotient for `rowCount` is the only arithmetic it evaluates, no remainder is. -/
theorem ViewAll_no_entry (env : Env) (km : Keymap) (width : Int)
    (h : ∀ k ∈ km.Bindings, k.Visible = false) :
    km.AllBindings = [] ∧
    ViewAllColumns env km = .ok [] ∧
    ViewAll env km width = .ok (env.JoinHorizontal Position.Top []) ∧
    (env.JoinHorizontal Position.Top [] = "" → ViewAll env km width = .ok "") ∧
    viewAllOps env km = [ArithOp.quotient 0 km.ShowAllColumnCount] := by
  have hk := AllBindings_eq_nil km h
  have hcols : ViewAllColumns env km = .ok [] := by
    simp [ViewAllColumns, hk, viewAllLoop, bind, Except.bind, pure, Except.pure]
  have hview : ViewAll env km width = .ok (env.JoinHorizontal Position.Top []) := by
    simp [ViewAll, hcols, bind, Except.bind, pure, Except.pure]
  refine ⟨hk, hcols, hview, ?_, ?_⟩
  · intro hj; rw [hview, hj]
  · simp [viewAllOps, hk, viewAllLoopOps]

/-- C11, amended, at a keymap with column count 0 whose only entry is hidden. -/
theorem ViewAll_no_entry_witness :
    ViewAll sampleEnv hiddenKeymap 80 = .ok "" ∧
    viewAllOps sampleEnv hiddenKeymap = [ArithOp.quotient 0 0] :=
  ⟨(ViewAll_no_entry sampleEnv hiddenKeymap 80 (by decide)).2.2.2.1 (by decide),
   (ViewAll_no_entry sampleEnv hiddenKeymap 80 (by decide)).2.2.2.2⟩

/-- C20: for every keymap with column count `c ≥ 1`, whenever the loop body of
`ViewAll` runs (`n ≥ 1` visible entries) `rowCount = ceil(n / c)` is at least 1;
`ViewAll` returns without a panic and no remainder it evaluates has divisor zero. -/
theorem ViewAll_no_modulo_by_zero (env : Env) (km : Keymap) (width : Int)
    (hc : 1 ≤ km.ShowAllColumnCount) :
    (1 ≤ km.AllBindings.length →
      1 ≤ rowCountOf env km.AllBindings.length km.ShowAllColumnCount) ∧
    (∃ s, ViewAll env km width = .ok s) ∧
    (∀ a, ArithOp.modulo a 0 ∉ viewAllOps env km) := by
  have hnz : ∀ a, ArithOp.modulo a 0 ∉ viewAllOps env km := by
    intro a ha
    simp only [viewAllOps, List.mem_cons] at ha
    rcases ha with ha | ha
    · cases ha
    · obtain ⟨b, hb⟩ := viewAllLoopOps_modulus _ _ _ _ ha
      have hR : rowCountOf env km.AllBindings.length km.ShowAllColumnCount = 0 := by
        injection hb with _ h2; exact h2.symm
      cases hkeys : km.AllBindings with
      | nil => rw [hkeys] at ha; simp [viewAllLoopOps] at ha
      | cons key rest =>
        have := rowCountOf_pos env km.AllBindings.length km.ShowAllColumnCount hc
          (by rw [hkeys]; simp)
        omega
  refine ⟨fun hn => rowCountOf_pos env _ _ hc hn, ?_, hnz⟩
  cases hcols : ViewAllColumns env km with
  | ok cols => exact ⟨_, by simp [ViewAll, hcols, bind, Except.bind, pure, Except.pure]; rfl⟩
  | error e =>
    cases e with
    | integerDivideByZero =>
      obtain ⟨a, ha⟩ := (viewAllOps_modulo_zero_iff env km).mpr hcols
      exact absurd ha (hnz a)
    | assignmentToNilMap =>
      exfalso
      by_cases hR : rowCountOf env km.AllBindings.length km.ShowAllColumnCount = 0
      · have hk : km.AllBindings = [] := by
          cases hkeys : km.AllBindings with
          | nil => rfl
          | cons key rest =>
            have := rowCountOf_pos env km.AllBindings.length km.ShowAllColumnCount hc
              (by rw [hkeys]; simp)
            omega
        simp [ViewAllColumns, hk, viewAllLoop, bind, Except.bind, pure, Except.pure] at hcols
      · obtain ⟨st1, hloop⟩ := viewAllLoop_ok env km km.AllBindings.length _ hR km.AllBindings 0
          { columns := [], colCount := km.ShowAllColumnCount, keyStr := [], sepStr := [],
            descStr := [] }
        simp [ViewAllColumns, hloop, bind, Except.bind, pure, Except.pure] at hcols

/-- C20, at the sample keymap of 5 visible entries with column count 2. -/
theorem ViewAll_no_modulo_by_zero_witness :
    1 ≤ rowCountOf sampleEnv (sampleKeymap 2 5).AllBindings.length
      (sampleKeymap 2 5).ShowAllColumnCount ∧
    (∃ s, ViewAll sampleEnv (sampleKeymap 2 5) 80 = .ok s) :=
  ⟨(ViewAll_no_modulo_by_zero sampleEnv (sampleKeymap 2 5) 80 (by decide)).1 (by decide),
   (ViewAll_no_modulo_by_zero sampleEnv (sampleKeymap 2 5) 80 (by decide)).2.1⟩

/-! ## Initialisation and the default style -/

/-- C12 as stated fails: after a context was activated, `Init()` empties the map
but `CurrentContext` and `previousContext` keep their values. -/
theorem Init_pointers_counterexample :
    (SwitchContext sampleRegistry "next").CurrentContext = "next" ∧
    (SwitchContext sampleRegistry "next").previousContext = "start" ∧
    (Init (SwitchContext sampleRegistry "next")).lookup "start" = none ∧
    (Init (SwitchContext sampleRegistry "next")).CurrentContext = "next" ∧
    (Init (SwitchContext sampleRegistry "next")).previousContext = "start" := by
  decide

/-- C12, amended: from every prior registry state, after `Init()` the map
`Contexts` is a map with no entry; `CurrentContext` and `previousContext` keep the
values they had, so both are the empty identifier when `Init()` is called at
program start. -/
theorem Init_state (r : Registry) (heap : Ptr → KeymapStruct) (arrays : Arrays) :
    (Init r).Contexts.isSome = true ∧
    (∀ id, (Init r).lookup id = none) ∧
    (Init r).CurrentContext = r.CurrentContext ∧
    (Init r).previousContext = r.previousContext ∧
    (Init (programStart heap arrays)).CurrentContext = "" ∧
    (Init (programStart heap arrays)).previousContext = "" :=
  ⟨rfl, fun _ => rfl, rfl, rfl, rfl, rfl⟩

/-- C13 fails on the code: after `SetDefaultStyle(customStyle)` the keymap made by
`NewKeymap(2)` carries the literal style, which is not `customStyle`; `NewKeymap`
never reads `defaultStyle`. -/
theorem NewKeymap_ignores_defaultStyle :
    (SetDefaultStyle (Init sampleRegistry) customStyle).defaultStyle = customStyle ∧
    (NewKeymap 2).Style = literalStyle ∧
    (NewKeymap 2).Style ≠ customStyle ∧
    (NewKeymap 2).Style.FullColSeparatorValue = "   " ∧
    customStyle.FullColSeparatorValue = " | " := by
  decide


/-! ## The essential line -/

theorem intercalate_cons_eq (sep x : List String) (xs : List (List String)) :
    List.intercalate sep (x :: xs) = x ++ (xs.map (fun y => sep ++ y)).flatten := by
  induction xs generalizing x with
  | nil => simp [List.intercalate, List.intersperse]
  | cons y ys ih =>
    have h := ih y
    simp only [List.intercalate] at h ⊢
    simp only [List.intersperse, List.flatten_cons, List.map_cons, h, List.append_assoc]

theorem viewEssentialLoop_pos (env : Env) (km : Keymap) :
    ∀ (keys : List Key) (i : Nat) (b : Builder), 0 < i →
      (viewEssentialLoop env km i keys b).map Piece.str = b.map Piece.str ++
        (keys.map (fun k =>
          [env.Render km.Style.EssentialColSeparator km.Style.EssentialColSeparatorValue] ++
            essentialEntry env km k)).flatten := by
  intro keys
  induction keys with
  | nil => intro i b _; simp [viewEssentialLoop]
  | cons key rest ih =>
    intro i b hi
    simp only [viewEssentialLoop, if_pos hi]
    rw [ih (i + 1) _ (by omega)]
    simp [essentialEntry, Piece.str]

theorem viewEssentialLoop_zero (env : Env) (km : Keymap) (keys : List Key) :
    (viewEssentialLoop env km 0 keys []).map Piece.str =
      List.intercalate
        [env.Render km.Style.EssentialColSeparator km.Style.EssentialColSeparatorValue]
        (keys.map (essentialEntry env km)) := by
  cases keys with
  | nil => simp [viewEssentialLoop, List.intercalate]
  | cons key rest =>
    rw [List.map_cons, intercalate_cons_eq]
    simp only [viewEssentialLoop, Nat.lt_irrefl, if_false]
    rw [viewEssentialLoop_pos env km rest (0 + 1) _ (by omega)]
    simp [essentialEntry, Piece.str, List.map_map, Function.comp_def]

/-- C14: for every keymap, the line `ViewEssential` builds before centering is
the concatenation, over `EssentialBindings()` in order, of the styled key label,
the styled key separator and the styled effective description of each entry,
with the styled essential column separator between consecutive entries only;
`EssentialBindings()` holds the visible essential entries only, so for entries
`s`, `esc`, `h` with `esc` not essential the line is the strings of `s`, the
separator, the strings of `h`. -/
theorem ViewEssential_line (env : Env) (km : Keymap) (width : Int) :
    (viewEssentialLoop env km 0 km.EssentialBindings []).map Piece.str =
      List.intercalate
        [env.Render km.Style.EssentialColSeparator km.Style.EssentialColSeparatorValue]
        (km.EssentialBindings.map (essentialEntry env km)) ∧
    ViewEssential env km width = env.RenderCentered width (String.join (List.intercalate
        [env.Render km.Style.EssentialColSeparator km.Style.EssentialColSeparatorValue]
        (km.EssentialBindings.map (essentialEntry env km)))) ∧
    km.EssentialBindings = km.Bindings.filter (fun k => k.Visible && k.Essential) ∧
    (∀ s esc h : Key, km.Bindings = [s, esc, h] →
      s.Essential = true → esc.Essential = false → h.Essential = true →
      s.Visible = true → h.Visible = true →
      ViewEssential env km width = env.RenderCentered width (String.join
        (essentialEntry env km s ++
          [env.Render km.Style.EssentialColSeparator km.Style.EssentialColSeparatorValue] ++
          essentialEntry env km h))) := by
  have h1 := viewEssentialLoop_zero env km km.EssentialBindings
  have h2 : ViewEssential env km width = env.RenderCentered width (String.join (List.intercalate
        [env.Render km.Style.EssentialColSeparator km.Style.EssentialColSeparatorValue]
        (km.EssentialBindings.map (essentialEntry env km)))) := by
    simp only [ViewEssential, Builder.String, h1]
  have h3 : km.EssentialBindings = km.Bindings.filter (fun k => k.Visible && k.Essential) := by
    simp [Keymap.EssentialBindings, essentialLoop_eq]
  refine ⟨h1, h2, h3, ?_⟩
  intro s esc h hb hs hesc hh hsv hhv
  rw [h2, h3, hb]
  simp [List.filter_cons, hs, hesc, hh, hsv, hhv, List.intercalate, List.intersperse]

/-- C14, at the keymap `startKeymap` of `exemple/main.go`. -/
theorem ViewEssential_line_witness :
    ViewEssential sampleEnv startKeymap 80 = "s - switch context â€¢ h - help" ∧
    ViewEssential sampleEnv startKeymap 80 = sampleEnv.RenderCentered 80 (String.join
      (essentialEntry sampleEnv startKeymap
          { mkKey "s" "switch context" true with Binding := mkBinding "s" "switch context" } ++
        [sampleEnv.Render startKeymap.Style.EssentialColSeparator
          startKeymap.Style.EssentialColSeparatorValue] ++
        essentialEntry sampleEnv startKeymap (mkKey "h" "help" true))) :=
  ⟨by decide,
   (ViewEssential_line sampleEnv startKeymap 80).2.2.2
     (mkKey "s" "switch context" true) (mkKey "esc" "quit" false) (mkKey "h" "help" true)
     (by decide) (by decide) (by decide) (by decide) (by decide) (by decide)⟩


/-! ## Permanent descriptions and visibility -/

theorem setHelpDescLoop_find (label t : String) (l : List Key) (k : Key)
    (h : l.find? (fun e => decide (label = e.Binding.Help.Key)) = some k) :
    (setHelpDescLoop label t l).find? (fun e => decide (label = e.Binding.Help.Key))
      = some { k with Binding := k.Binding.SetHelp k.Binding.Help.Key t } := by
  induction l with
  | nil => simp at h
  | cons a rest ih =>
    by_cases ha : label = a.Binding.Help.Key
    · have hk : a = k := by simpa [List.find?, ha] using h
      subst hk
      have hl : label = (a.Binding.SetHelp a.Binding.Help.Key t).Help.Key := ha
      simp only [setHelpDescLoop, if_pos ha]
      rw [List.find?_cons_of_pos]
      exact decide_eq_true hl
    · have hr : rest.find? (fun e => decide (label = e.Binding.Help.Key)) = some k := by
        simpa [List.find?, ha] using h
      simp [setHelpDescLoop, ha, List.find?, ih hr]

theorem resetLoop_find (label : String) (l : List Key) :
    (resetLoop l).find? (fun e => decide (label = e.Binding.Help.Key))
      = (l.find? (fun e => decide (label = e.Binding.Help.Key))).map
          (fun k => { k with CustomHelpDesc := "", Visible := true }) := by
  induction l with
  | nil => rfl
  | cons a rest ih =>
    by_cases ha : label = a.Binding.Help.Key
    · simp [resetLoop, List.find?, ha]
    · simp [resetLoop, List.find?, ha, ih]

/-- C16: for every keymap holding an entry labelled `L` and every text `t`,
after `SetHelpDesc(L, t)` and then `Reset()` the first entry labelled `L` shows
`t`; after `updateHelpDesc(L, t)` and then `Reset()` it shows the description its
binding had before. -/
theorem SetHelpDesc_survives_Reset (km : Keymap) (b : Binding) (t : String) (k : Key)
    (hk : km.Bindings.find? (fun e => decide (b.Help.Key = e.Binding.Help.Key)) = some k) :
    (∃ k1, ((km.SetHelpDesc b t).Reset).Bindings.find?
          (fun e => decide (b.Help.Key = e.Binding.Help.Key)) = some k1 ∧
        k1.Binding.Help.Key = k.Binding.Help.Key ∧ k1.GetHelpDesc = t) ∧
    (∃ k2, ((km.updateHelpDesc b t).Reset).Bindings.find?
          (fun e => decide (b.Help.Key = e.Binding.Help.Key)) = some k2 ∧
        k2.Binding = k.Binding ∧ k2.GetHelpDesc = k.Binding.Help.Desc) := by
  constructor
  · refine ⟨{ ({ k with Binding := k.Binding.SetHelp k.Binding.Help.Key t } : Key) with
      CustomHelpDesc := "", Visible := true }, ?_, rfl, ?_⟩
    · simp only [Keymap.Reset, Keymap.SetHelpDesc]
      rw [resetLoop_find, setHelpDescLoop_find _ _ _ _ hk]
      rfl
    · simp [Key.GetHelpDesc, Binding.SetHelp, Binding.Help]
  · refine ⟨{ k with CustomHelpDesc := "", Visible := true }, ?_, rfl, ?_⟩
    · simp only [Keymap.Reset, Keymap.updateHelpDesc]
      rw [resetLoop_find, updateHelpDescLoop_find _ _ _ _ hk]
      rfl
    · simp [Key.GetHelpDesc]

/-- C16, at the keymap of the sample registry, whose entry `s` carries the
temporary description `"tmp"`. -/
theorem SetHelpDesc_survives_Reset_witness :
    ∃ k1, (((sampleRegistry.keymap 0).SetHelpDesc (mkBinding "s" "") "store").Reset).Bindings.find?
          (fun e => decide ((mkBinding "s" "").Help.Key = e.Binding.Help.Key)) = some k1 ∧
      k1.Binding.Help.Key = "s" ∧ k1.GetHelpDesc = "store" :=
  (SetHelpDesc_survives_Reset (sampleRegistry.keymap 0) (mkBinding "s" "") "store"
    { mkKey "s" "save" true with CustomHelpDesc := "tmp" } (by decide)).1

theorem setVisibleLoop_absent (label : String) (v : Bool) (l : List Key)
    (h : ∀ k ∈ l, k.Binding.Help.Key ≠ label) : setVisibleLoop label v l = l := by
  induction l with
  | nil => rfl
  | cons a rest ih =>
    have ha : ¬ label = a.Binding.Help.Key := fun e => h a (List.mem_cons_self _ _) e.symm
    simp only [setVisibleLoop, if_neg ha]
    rw [ih (fun k hk => h k (List.mem_cons_of_mem _ hk))]

theorem setVisibleLoop_split (label : String) (v : Bool) (pre post : List Key) (k : Key)
    (hpre : ∀ e ∈ pre, e.Binding.Help.Key ≠ label) (hk : k.Binding.Help.Key = label) :
    setVisibleLoop label v (pre ++ k :: post) = pre ++ { k with Visible := v } :: post := by
  induction pre with
  | nil => simp [setVisibleLoop, hk]
  | cons a rest ih =>
    have ha : ¬ label = a.Binding.Help.Key := fun e => hpre a (List.mem_cons_self _ _) e.symm
    show setVisibleLoop label v (a :: (rest ++ k :: post)) = a :: (rest ++ _ :: post)
    simp only [setVisibleLoop, if_neg ha]
    rw [ih (fun e he => hpre e (List.mem_cons_of_mem _ he))]

theorem isVisibleLoop_split (label : String) (pre post : List Key) (k : Key)
    (hpre : ∀ e ∈ pre, e.Binding.Help.Key ≠ label) (hk : k.Binding.Help.Key = label) :
    isVisibleLoop label (pre ++ k :: post) = k.Visible := by
  induction pre with
  | nil => simp [isVisibleLoop, hk]
  | cons a rest ih =>
    have ha : ¬ label = a.Binding.Help.Key := fun e => hpre a (List.mem_cons_self _ _) e.symm
    show isVisibleLoop label (a :: (rest ++ k :: post)) = k.Visible
    simp only [isVisibleLoop, if_neg ha]
    exact ih (fun e he => hpre e (List.mem_cons_of_mem _ he))

/-- C17: for every keymap, label `L` and boolean `v`, `setVisible(L, v)` leaves the
column count and the style as they are; it leaves the whole keymap as it is when
no entry is labelled `L`; otherwise the first entry labelled `L` gets `Visible = v`
and keeps its other fields, every other entry is unchanged and `isVisible(L)`
then returns `v`. -/
theorem setVisible_frame (km : Keymap) (b : Binding) (v : Bool) :
    (km.setVisible b v).ShowAllColumnCount = km.ShowAllColumnCount ∧
    (km.setVisible b v).Style = km.Style ∧
    ((∀ k ∈ km.Bindings, k.Binding.Help.Key ≠ b.Help.Key) → km.setVisible b v = km) ∧
    (∀ (pre post : List Key) (k : Key), km.Bindings = pre ++ k :: post →
      (∀ e ∈ pre, e.Binding.Help.Key ≠ b.Help.Key) → k.Binding.Help.Key = b.Help.Key →
      (km.setVisible b v).Bindings = pre ++ { k with Visible := v } :: post ∧
      (km.setVisible b v).isVisible b = v) := by
  refine ⟨rfl, rfl, ?_, ?_⟩
  · intro h
    cases km
    simp only [Keymap.setVisible]
    rw [setVisibleLoop_absent _ _ _ h]
  · intro pre post k hb hpre hk
    have hs : (km.setVisible b v).Bindings = pre ++ { k with Visible := v } :: post := by
      simp only [Keymap.setVisible, hb]
      exact setVisibleLoop_split _ _ _ _ _ hpre hk
    refine ⟨hs, ?_⟩
    simp only [Keymap.isVisible, hs]
    exact isVisibleLoop_split _ _ _ _ hpre hk

/-- C17, at the keymap `startKeymap` of `exemple/main.go`: hiding `esc`, and
hiding a label no entry bears. -/
theorem setVisible_frame_witness :
    (startKeymap.setVisible (mkBinding "esc" "") false).Bindings =
      [mkKey "s" "switch context" true] ++
        { mkKey "esc" "quit" false with Visible := false } :: [mkKey "h" "help" true] ∧
    (startKeymap.setVisible (mkBinding "esc" "") false).isVisible (mkBinding "esc" "") = false ∧
    startKeymap.setVisible (mkBinding "zz" "") false = startKeymap :=
  ⟨((setVisible_frame startKeymap (mkBinding "esc" "") false).2.2.2
      [mkKey "s" "switch context" true] [mkKey "h" "help" true] (mkKey "esc" "quit" false)
      (by decide) (by decide) (by decide)).1,
   ((setVisible_frame startKeymap (mkBinding "esc" "") false).2.2.2
      [mkKey "s" "switch context" true] [mkKey "h" "help" true] (mkKey "esc" "quit" false)
      (by decide) (by decide) (by decide)).2,
   (setVisible_frame startKeymap (mkBinding "zz" "") false).2.2.1 (by decide)⟩


/-! ## Reachable registry states -/

theorem lookup_RegisterContext (r r1 : Registry) (context : KeymapContext) (p : Ptr)
    (h : RegisterContext r context (some p) = .ok r1) :
    r1.heap = r.heap ∧ r1.arrays = r.arrays ∧ r1.CurrentContext = r.CurrentContext ∧
    r1.lookup context = some (some p) ∧
    (∀ id, id ≠ context → r1.lookup id = r.lookup id) := by
  unfold RegisterContext at h
  cases hm : r.Contexts with
  | none => rw [hm] at h; cases h
  | some m =>
    rw [hm] at h
    injection h with h
    subst h
    refine ⟨rfl, rfl, rfl, ?_, ?_⟩
    · simp [Registry.lookup]
    · intro id hid
      simp [Registry.lookup, hm, Function.update_noteq hid]

theorem GetCurrentContextKeymap_eq_some (r : Registry) (p : Ptr) :
    GetCurrentContextKeymap r = some p ↔ r.lookup r.CurrentContext = some (some p) := by
  unfold GetCurrentContextKeymap
  cases h : r.lookup r.CurrentContext with
  | none => simp
  | some v => cases v <;> simp

theorem Slice.Disjoint.symm {s t : Slice} (h : Slice.Disjoint s t) : Slice.Disjoint t s := by
  rcases h with h | h | h | h | h
  · exact Or.inl (Ne.symm h)
  · exact Or.inr (Or.inr (Or.inl h))
  · exact Or.inr (Or.inl h)
  · exact Or.inr (Or.inr (Or.inr (Or.inr h)))
  · exact Or.inr (Or.inr (Or.inr (Or.inl h)))

/-- The keymap seen through `q` after the entries of the keymap at `p` are
written in place, when the two share no entry. -/
theorem keymap_write_disjoint (r : Registry) (p q : Ptr) (l : List Key)
    (h : Slice.Disjoint (r.heap q).Bindings (r.heap p).Bindings) :
    ({ r with arrays := writeSlice r.arrays (r.heap p).Bindings l } : Registry).keymap q
      = r.keymap q := by
  simp only [Registry.keymap]
  rw [readSlice_writeSlice_disjoint _ _ _ _ h]

/-- The keymap seen through `p` right after `SwitchContext`, when it was the
current one. -/
theorem keymap_SwitchContext_current (r : Registry) (context : KeymapContext) (p : Ptr)
    (hp : GetCurrentContextKeymap r = some p) :
    (SwitchContext r context).keymap p = (r.keymap p).Reset := by
  simp only [SwitchContext, hp, Registry.keymap, Keymap.Reset]
  rw [readSlice_writeSlice_same _ _ _ (by rw [length_resetLoop, length_readSlice])]

/-- The keymap seen through `q` right after `SwitchContext`, when it shares no
entry with the current one. -/
theorem keymap_SwitchContext_other (r : Registry) (context : KeymapContext) (q : Ptr)
    (h : ∀ p, GetCurrentContextKeymap r = some p →
      Slice.Disjoint (r.heap q).Bindings (r.heap p).Bindings) :
    (SwitchContext r context).keymap q = r.keymap q := by
  cases hc : GetCurrentContextKeymap r with
  | none => simp only [SwitchContext, hc, Registry.keymap]
  | some p =>
    simp only [SwitchContext, hc, Registry.keymap]
    rw [readSlice_writeSlice_disjoint _ _ _ _ (h p hc)]

theorem frame_SetKeybindVisible (r : Registry) (keybind : Binding) (visible : Bool) :
    (SetKeybindVisible r keybind visible).Contexts = r.Contexts ∧
    (SetKeybindVisible r keybind visible).CurrentContext = r.CurrentContext ∧
    (SetKeybindVisible r keybind visible).heap = r.heap := by
  unfold SetKeybindVisible
  cases GetCurrentContextKeymap r <;> exact ⟨rfl, rfl, rfl⟩

theorem frame_UpdateKeybindHelpDesc (r : Registry) (keybind : Binding) (desc : String) :
    (UpdateKeybindHelpDesc r keybind desc).Contexts = r.Contexts ∧
    (UpdateKeybindHelpDesc r keybind desc).CurrentContext = r.CurrentContext ∧
    (UpdateKeybindHelpDesc r keybind desc).heap = r.heap := by
  unfold UpdateKeybindHelpDesc
  cases GetCurrentContextKeymap r <;> exact ⟨rfl, rfl, rfl⟩

/-- The lookups and the current keymap depend on the map and on the current
identifier only. -/
theorem lookup_congr (r1 r : Registry) (hc : r1.Contexts = r.Contexts)
    (hcur : r1.CurrentContext = r.CurrentContext) :
    (∀ id, r1.lookup id = r.lookup id) ∧
    GetCurrentContextKeymap r1 = GetCurrentContextKeymap r := by
  have hl : ∀ id, r1.lookup id = r.lookup id := by
    intro id; simp only [Registry.lookup, hc]
  exact ⟨hl, by simp only [GetCurrentContextKeymap, hl, hcur]⟩

/-- The keymap seen through `q` after `SetKeybindVisible`, when it shares no
entry with the current one. -/
theorem keymap_SetKeybindVisible_other (r : Registry) (keybind : Binding) (visible : Bool)
    (q : Ptr)
    (h : ∀ p, GetCurrentContextKeymap r = some p →
      Slice.Disjoint (r.heap q).Bindings (r.heap p).Bindings) :
    (SetKeybindVisible r keybind visible).keymap q = r.keymap q := by
  cases hc : GetCurrentContextKeymap r with
  | none => simp only [SetKeybindVisible, hc]
  | some p =>
    simp only [SetKeybindVisible, hc]
    exact keymap_write_disjoint r p q _ (h p hc)

/-- The keymap seen through `q` after `UpdateKeybindHelpDesc`, when it shares no
entry with the current one. -/
theorem keymap_UpdateKeybindHelpDesc_other (r : Registry) (keybind : Binding) (desc : String)
    (q : Ptr)
    (h : ∀ p, GetCurrentContextKeymap r = some p →
      Slice.Disjoint (r.heap q).Bindings (r.heap p).Bindings) :
    (UpdateKeybindHelpDesc r keybind desc).keymap q = r.keymap q := by
  cases hc : GetCurrentContextKeymap r with
  | none => simp only [UpdateKeybindHelpDesc, hc]
  | some p =>
    simp only [UpdateKeybindHelpDesc, hc]
    exact keymap_write_disjoint r p q _ (h p hc)

/-- In a reachable state every registered keymap other than the current one is in
its default state, and two registered keymaps at different addresses share no
entry. -/
theorem Reachable_invariant (r : Registry) (hr : Reachable r) :
    (∀ id p, r.lookup id = some (some p) → GetCurrentContextKeymap r ≠ some p →
      (r.keymap p).InDefaultState) ∧
    (∀ id1 p id2 q, r.lookup id1 = some (some p) → r.lookup id2 = some (some q) → p ≠ q →
      Slice.Disjoint (r.heap p).Bindings (r.heap q).Bindings) := by
  induction hr with
  | init r0 =>
    exact ⟨fun id p h => by simp [Init, Registry.lookup] at h,
      fun id1 p id2 q h => by simp [Init, Registry.lookup] at h⟩
  | register r r1 context q _ hdef hdis hcond hreg ih =>
    obtain ⟨ih1, ih2⟩ := ih
    obtain ⟨hheap, harr, hcur, hctx, hother⟩ := lookup_RegisterContext r r1 context q hreg
    have hkm : ∀ p, r1.keymap p = r.keymap p := by
      intro p; simp only [Registry.keymap, hheap, harr]
    constructor
    · intro id p hid hne
      rw [hkm]
      by_cases hidc : id = context
      · subst hidc
        rw [hctx] at hid
        injection hid with hid; injection hid with hid
        subst hid; exact hdef
      · rw [hother id hidc] at hid
        apply ih1 id p hid
        intro hcurp
        rcases hcond with hc | hc
        · apply hne
          rw [GetCurrentContextKeymap_eq_some] at hcurp ⊢
          rw [hcur, hother _ (Ne.symm hc)]
          exact hcurp
        · exact hc id p hidc hid hcurp
    · intro id1 p1 id2 p2 h1 h2 hne
      rw [hheap]
      by_cases hc1 : id1 = context
      · subst hc1
        rw [hctx] at h1
        injection h1 with h1; injection h1 with h1
        subst h1
        by_cases hc2 : id2 = id1
        · subst hc2
          rw [hctx] at h2
          injection h2 with h2; injection h2 with h2
          exact absurd h2 hne
        · rw [hother id2 hc2] at h2
          exact (hdis id2 p2 h2 (Ne.symm hne)).symm
      · rw [hother id1 hc1] at h1
        by_cases hc2 : id2 = context
        · subst hc2
          rw [hctx] at h2
          injection h2 with h2; injection h2 with h2
          subst h2
          exact hdis id1 p1 h1 hne
        · rw [hother id2 hc2] at h2
          exact ih2 id1 p1 id2 p2 h1 h2 hne
  | switch r context _ ih =>
    obtain ⟨ih1, ih2⟩ := ih
    refine ⟨?_, ih2⟩
    intro id p hid _
    have hid0 : r.lookup id = some (some p) := hid
    cases hc : GetCurrentContextKeymap r with
    | none =>
      rw [keymap_SwitchContext_other r context p (by intro p1 h1; rw [hc] at h1; cases h1)]
      exact ih1 id p hid0 (by rw [hc]; simp)
    | some pc =>
      by_cases hp : p = pc
      · subst hp
        rw [keymap_SwitchContext_current r context p hc]
        exact fun k hk => mem_resetLoop hk
      · rw [keymap_SwitchContext_other r context p (by
          intro p1 h1
          rw [hc] at h1; injection h1 with h1; subst h1
          exact ih2 id p r.CurrentContext pc hid0
            ((GetCurrentContextKeymap_eq_some r pc).mp hc) hp)]
        exact ih1 id p hid0 (by rw [hc]; intro h; injection h with h; exact hp h.symm)
  | switchPrevious r _ ih =>
    obtain ⟨ih1, ih2⟩ := ih
    refine ⟨?_, ih2⟩
    intro id p hid _
    have hid0 : r.lookup id = some (some p) := hid
    show ((SwitchContext r r.previousContext).keymap p).InDefaultState
    cases hc : GetCurrentContextKeymap r with
    | none =>
      rw [keymap_SwitchContext_other r _ p (by intro p1 h1; rw [hc] at h1; cases h1)]
      exact ih1 id p hid0 (by rw [hc]; simp)
    | some pc =>
      by_cases hp : p = pc
      · subst hp
        rw [keymap_SwitchContext_current r _ p hc]
        exact fun k hk => mem_resetLoop hk
      · rw [keymap_SwitchContext_other r _ p (by
          intro p1 h1
          rw [hc] at h1; injection h1 with h1; subst h1
          exact ih2 id p r.CurrentContext pc hid0
            ((GetCurrentContextKeymap_eq_some r pc).mp hc) hp)]
        exact ih1 id p hid0 (by rw [hc]; intro h; injection h with h; exact hp h.symm)
  | setVisible r keybind visible _ ih =>
    obtain ⟨ih1, ih2⟩ := ih
    obtain ⟨fc, fcur, fheap⟩ := frame_SetKeybindVisible r keybind visible
    obtain ⟨hl, hg⟩ := lookup_congr _ r fc fcur
    constructor
    · intro id p hid hne
      rw [hl] at hid
      rw [hg] at hne
      rw [keymap_SetKeybindVisible_other r keybind visible p (by
        intro pc hc
        exact ih2 id p r.CurrentContext pc hid
          ((GetCurrentContextKeymap_eq_some r pc).mp hc)
          (by intro h; apply hne; rw [hc, h]))]
      exact ih1 id p hid hne
    · intro id1 p1 id2 p2 h1 h2 hne
      rw [hl] at h1 h2
      rw [fheap]
      exact ih2 id1 p1 id2 p2 h1 h2 hne
  | updateHelpDesc r keybind desc _ ih =>
    obtain ⟨ih1, ih2⟩ := ih
    obtain ⟨fc, fcur, fheap⟩ := frame_UpdateKeybindHelpDesc r keybind desc
    obtain ⟨hl, hg⟩ := lookup_congr _ r fc fcur
    constructor
    · intro id p hid hne
      rw [hl] at hid
      rw [hg] at hne
      rw [keymap_UpdateKeybindHelpDesc_other r keybind desc p (by
        intro pc hc
        exact ih2 id p r.CurrentContext pc hid
          ((GetCurrentContextKeymap_eq_some r pc).mp hc)
          (by intro h; apply hne; rw [hc, h]))]
      exact ih1 id p hid hne
    · intro id1 p1 id2 p2 h1 h2 hne
      rw [hl] at h1 h2
      rw [fheap]
      exact ih2 id1 p1 id2 p2 h1 h2 hne
  | build r q km arrays _ hq hkeep ih =>
    obtain ⟨ih1, ih2⟩ := ih
    have hheap : ∀ id p, r.lookup id = some (some p) →
        Function.update r.heap q km p = r.heap p := by
      intro id p hid
      have hp : p ≠ q := by
        intro h; subst h; exact hq id hid
      exact Function.update_noteq hp _ _
    constructor
    · intro id p hid hne
      have hid0 : r.lookup id = some (some p) := hid
      have hne0 : GetCurrentContextKeymap r ≠ some p := hne
      have hk : ({ r with heap := Function.update r.heap q km, arrays := arrays } :
          Registry).keymap p = r.keymap p := by
        simp only [Registry.keymap, hheap id p hid0, hkeep id p hid0]
      rw [hk]
      exact ih1 id p hid0 hne0
    · intro id1 p1 id2 p2 h1 h2 hne
      have h10 : r.lookup id1 = some (some p1) := h1
      have h20 : r.lookup id2 = some (some p2) := h2
      show Slice.Disjoint (Function.update r.heap q km p1).Bindings
        (Function.update r.heap q km p2).Bindings
      rw [hheap id1 p1 h10, hheap id2 p2 h20]
      exact ih2 id1 p1 id2 p2 h10 h20 hne

/-- C15 as stated fails, in two ways.  First: the keymap at address 0 is
registered in default state under `"a"` and under `"b"`, becomes current under
`"a"` and gets its entry hidden; once the keymap at address 1, in default state,
is registered under `"a"`, the keymap under `"b"` is not the current one and has
a hidden entry, which is still hidden right after `SwitchContext("b")`.  Second:
the keymaps at addresses 0 and 1 share their backing array and are registered in
default state under `"a"` and `"b"`; hiding the entry of the current one, at
address 0, hides it in the other. -/
theorem Reachable_alias_counterexample :
    (scenarioStart.keymap 0).Bindings.map (fun k => (k.Visible, k.CustomHelpDesc))
      = [(true, "")] ∧
    aliasBefore.toOption.map (fun r =>
        (r.CurrentContext, (r.keymap 1).Bindings.map (fun k => (k.Visible, k.CustomHelpDesc))))
      = some ("a", [(true, "")]) ∧
    aliasAfter.toOption.map (fun r =>
        (r.CurrentContext, GetCurrentContextKeymap r, r.lookup "b",
          (r.keymap 0).Bindings.map Key.Visible))
      = some ("a", some 1, some (some 0), [false]) ∧
    aliasAfter.toOption.map (fun r =>
        ((SwitchContext r "b").CurrentContext, GetCurrentContextKeymap (SwitchContext r "b"),
          ((SwitchContext r "b").keymap 0).Bindings.map Key.Visible))
      = some ("b", some 0, [false]) ∧
    (sharedStart.keymap 0).Bindings.map (fun k => (k.Visible, k.CustomHelpDesc))
      = [(true, "")] ∧
    (sharedStart.keymap 1).Bindings.map (fun k => (k.Visible, k.CustomHelpDesc))
      = [(true, "")] ∧
    sharedScenario.toOption.map (fun r =>
        (r.CurrentContext, GetCurrentContextKeymap r, r.lookup "b",
          (r.keymap 1).Bindings.map Key.Visible))
      = some ("a", some 0, some (some 1), [false]) := by
  refine ⟨by decide, by decide, by decide, by decide, by decide, by decide, by decide⟩

/-- C15, amended: in every registry state reachable from `Init()` by
`SwitchContext`, `SwitchToPreviousContext`, `SetKeybindVisible`,
`UpdateKeybindHelpDesc` and `RegisterContext` of keymaps in default state that
share no entry with another registered keymap and do not replace the keymap
under `CurrentContext` while that keymap is held under another identifier, every
registered keymap other than the one under `CurrentContext` is in its default
state; and right after `SwitchContext(id)` with `id` registered, the keymap under
`id` is current and in its default state. -/
theorem Reachable_others_default (r : Registry) (hr : Reachable r) :
    (∀ id p, r.lookup id = some (some p) → GetCurrentContextKeymap r ≠ some p →
      (r.keymap p).InDefaultState) ∧
    (∀ id p, r.lookup id = some (some p) →
      GetCurrentContextKeymap (SwitchContext r id) = some p ∧
      ((SwitchContext r id).keymap p).InDefaultState) := by
  obtain ⟨ih1, ih2⟩ := Reachable_invariant r hr
  refine ⟨ih1, ?_⟩
  intro id p hid
  constructor
  · rw [GetCurrentContextKeymap_eq_some]
    exact hid
  · cases hc : GetCurrentContextKeymap r with
    | none =>
      rw [keymap_SwitchContext_other r id p (by intro p1 h1; rw [hc] at h1; cases h1)]
      exact ih1 id p hid (by rw [hc]; simp)
    | some pc =>
      by_cases hp : p = pc
      · subst hp
        rw [keymap_SwitchContext_current r id p hc]
        exact fun k hk => mem_resetLoop hk
      · rw [keymap_SwitchContext_other r id p (by
          intro p1 h1
          rw [hc] at h1; injection h1 with h1; subst h1
          exact ih2 id p r.CurrentContext pc hid
            ((GetCurrentContextKeymap_eq_some r pc).mp hc) hp)]
        exact ih1 id p hid (by rw [hc]; intro h; injection h with h; exact hp h.symm)

/-- C15, amended, at the state `twoContexts`: the keymap under `"b"` is not the
current one and is in its default state, also right after `SwitchContext("b")`. -/
theorem Reachable_others_default_witness :
    (twoContexts.keymap 0).Bindings.map Key.Visible = [false] ∧
    (twoContexts.keymap 1).InDefaultState ∧
    ((SwitchContext twoContexts "b").keymap 1).InDefaultState ∧
    ((SwitchContext twoContexts "a").keymap 0).InDefaultState :=
  ⟨by decide,
   (Reachable_others_default twoContexts
      (Reachable.setVisible _ _ _ (Reachable.switch _ _
        (Reachable.register (registered (Init scenarioStart) "a" 0) _ "b" 1
          (Reachable.register (Init scenarioStart) _ "a" 0 (Reachable.init scenarioStart)
            (by decide) (by intro id q h; cases h) (Or.inl (by decide)) rfl)
          (by decide) (fun _ _ _ hne => Or.inl hne)
          (Or.inl (by decide)) rfl)))).1 "b" 1 (by decide) (by decide),
   ((Reachable_others_default twoContexts
      (Reachable.setVisible _ _ _ (Reachable.switch _ _
        (Reachable.register (registered (Init scenarioStart) "a" 0) _ "b" 1
          (Reachable.register (Init scenarioStart) _ "a" 0 (Reachable.init scenarioStart)
            (by decide) (by intro id q h; cases h) (Or.inl (by decide)) rfl)
          (by decide) (fun _ _ _ hne => Or.inl hne)
          (Or.inl (by decide)) rfl)))).2 "b" 1 (by decide)).2,
   ((Reachable_others_default twoContexts
      (Reachable.setVisible _ _ _ (Reachable.switch _ _
        (Reachable.register (registered (Init scenarioStart) "a" 0) _ "b" 1
          (Reachable.register (Init scenarioStart) _ "a" 0 (Reachable.init scenarioStart)
            (by decide) (by intro id q h; cases h) (Or.inl (by decide)) rfl)
          (by decide) (fun _ _ _ hne => Or.inl hne)
          (Or.inl (by decide)) rfl)))).2 "a" 0 (by decide)).2⟩

/-! ## The full grid: where the entries go -/

/-- C18 fails on the code: with column count 3 and 3 visible entries (row count
1) `ViewAll` writes the first two entries into one column with no line break
between them, and writes a line break before the only entry of the second
column; with column count 2 and one visible entry it writes a line break before
that entry. -/
theorem ViewAll_line_breaks_evaluation :
    rowCountOf sampleEnv 3 3 = 1 ∧
    ViewAllColumns sampleEnv (sampleKeymap 3 3) = .ok
      [Column.block [Piece.text "a", Piece.text "b"]
         [Piece.text " - ", Piece.text " - "]
         [Piece.text "A", Piece.text "B"],
       Column.separator "   ",
       Column.block [Piece.newline, Piece.text "c"] [Piece.newline, Piece.text " - "]
         [Piece.newline, Piece.text "C"]] ∧
    ViewAllColumns sampleEnv (sampleKeymap 2 1) = .ok
      [Column.block [Piece.newline, Piece.text "a"] [Piece.newline, Piece.text " - "]
         [Piece.newline, Piece.text "A"]] := by
  refine ⟨rfl, ?_, ?_⟩
  · rfl
  · rfl

theorem textList_append (a b : Builder) : textList (a ++ b) = textList a ++ textList b := by
  induction a with
  | nil => rfl
  | cons p rest ih => cases p <;> simp [textList, ih]

theorem textList_writeEntry (b : Builder) (c : Bool) (t : String) :
    textList (writeEntry b c t) = textList b ++ [t] := by
  cases c <;> simp [writeEntry, textList_append, textList]

/-- One pass of the loop body of `ViewAll` adds the three rendered strings of its
entry, once each, to what the closed columns and the open builders hold. -/
theorem viewAllBody_texts (env : Env) (km : Keymap) (n : Nat) (R : Int) (i : Nat) (key : Key)
    (st : ViewAllState) (hR : R ≠ 0) (hi : i < n) :
    ∃ st1, viewAllBody env km n R i key st = .ok st1 ∧
      (st1.columns.map Column.keyTexts).flatten ++ textList st1.keyStr =
        (st.columns.map Column.keyTexts).flatten ++ textList st.keyStr ++
          [env.Render km.Style.FullKey key.Binding.Help.Key] ∧
      (st1.columns.map Column.sepTexts).flatten ++ textList st1.sepStr =
        (st.columns.map Column.sepTexts).flatten ++ textList st.sepStr ++
          [env.Render km.Style.FullKeySeparator km.Style.FullKeySeparatorValue] ∧
      (st1.columns.map Column.descTexts).flatten ++ textList st1.descStr =
        (st.columns.map Column.descTexts).flatten ++ textList st.descStr ++
          [env.Render km.Style.FullKeyDescription key.GetHelpDesc] ∧
      (i + 1 = n → st1.keyStr = [] ∧ st1.sepStr = [] ∧ st1.descStr = []) := by
  obtain ⟨lb, st1, hb, hcase⟩ := viewAllBody_cases env km n R i key st hR hi
  refine ⟨st1, hb, ?_⟩
  rcases hcase with ⟨_, hc, _, hk, hs, hd⟩ | ⟨hlt, _, _, _, hc, _, hk, hs, hd⟩ |
      ⟨hlt, hc, _, hk, hs, hd⟩
  · rw [hc, hk, hs, hd]
    simp [Column.keyTexts, Column.sepTexts, Column.descTexts, textList, textList_writeEntry]
  · rw [hc, hk, hs, hd]
    refine ⟨?_, ?_, ?_, fun h => by omega⟩ <;>
      simp [Column.keyTexts, Column.sepTexts, Column.descTexts, textList, textList_writeEntry]
  · rw [hc, hk, hs, hd]
    refine ⟨?_, ?_, ?_, fun h => by omega⟩ <;>
      simp [textList_writeEntry]

/-- The loop of `ViewAll` adds the rendered strings of the entries it visits, in
order and once each, and leaves its three builders empty. -/
theorem viewAllLoop_texts (env : Env) (km : Keymap) (n : Nat) (R : Int) (hR : R ≠ 0) :
    ∀ (rest : List Key) (i : Nat) (st : ViewAllState), i + rest.length = n →
      ∃ st1, viewAllLoop env km n R i rest st = .ok st1 ∧
        (st1.columns.map Column.keyTexts).flatten ++ textList st1.keyStr =
          (st.columns.map Column.keyTexts).flatten ++ textList st.keyStr ++
            rest.map (fun k => env.Render km.Style.FullKey k.Binding.Help.Key) ∧
        (st1.columns.map Column.sepTexts).flatten ++ textList st1.sepStr =
          (st.columns.map Column.sepTexts).flatten ++ textList st.sepStr ++
            rest.map (fun _ =>
              env.Render km.Style.FullKeySeparator km.Style.FullKeySeparatorValue) ∧
        (st1.columns.map Column.descTexts).flatten ++ textList st1.descStr =
          (st.columns.map Column.descTexts).flatten ++ textList st.descStr ++
            rest.map (fun k => env.Render km.Style.FullKeyDescription k.GetHelpDesc) ∧
        (rest ≠ [] → st1.keyStr = [] ∧ st1.sepStr = [] ∧ st1.descStr = []) := by
  intro rest
  induction rest with
  | nil => intro i st _; exact ⟨st, rfl, by simp, by simp, by simp, fun h => absurd rfl h⟩
  | cons key tail ih =>
    intro i st hlen
    simp only [List.length_cons] at hlen
    obtain ⟨st1, hb, h1, h2, h3, h4⟩ := viewAllBody_texts env km n R i key st hR (by omega)
    obtain ⟨st2, hl, g1, g2, g3, g4⟩ := ih (i + 1) st1 (by omega)
    refine ⟨st2, ?_, ?_, ?_, ?_, ?_⟩
    · rw [viewAllLoop_cons env km n R i key tail st st1 hb]; exact hl
    · rw [g1, h1]; simp
    · rw [g2, h2]; simp
    · rw [g3, h3]; simp
    · intro _
      cases tail with
      | nil =>
        simp only [List.length_nil] at hlen
        simp only [viewAllLoop, pure, Except.pure] at hl
        injection hl with hl
        subst hl
        exact h4 (by omega)
      | cons key2 tail2 => exact g4 (by simp)

/-- C19: for every keymap with column count `c ≥ 1`, `ViewAll` returns; the
rendered key labels, key separators and descriptions held by the columns it
closed, read column by column in closing order, are those of `AllBindings()` in
order, once each; its three builders are empty at the end; and `AllBindings()`
holds the visible entries only. -/
theorem ViewAll_places_every_entry (env : Env) (km : Keymap)
    (hc : 1 ≤ km.ShowAllColumnCount) :
    ∃ st, viewAllLoop env km km.AllBindings.length
        (rowCountOf env km.AllBindings.length km.ShowAllColumnCount) 0 km.AllBindings
        { columns := [], colCount := km.ShowAllColumnCount, keyStr := [], sepStr := [],
          descStr := [] } = .ok st ∧
      ViewAllColumns env km = .ok st.columns ∧
      st.keyStr = [] ∧ st.sepStr = [] ∧ st.descStr = [] ∧
      (st.columns.map Column.keyTexts).flatten =
        km.AllBindings.map (fun k => env.Render km.Style.FullKey k.Binding.Help.Key) ∧
      (st.columns.map Column.sepTexts).flatten =
        km.AllBindings.map (fun _ =>
          env.Render km.Style.FullKeySeparator km.Style.FullKeySeparatorValue) ∧
      (st.columns.map Column.descTexts).flatten =
        km.AllBindings.map (fun k => env.Render km.Style.FullKeyDescription k.GetHelpDesc) ∧
      km.AllBindings = km.Bindings.filter (fun k => k.Visible) := by
  have hfilter : km.AllBindings = km.Bindings.filter (fun k => k.Visible) := by
    simp [Keymap.AllBindings, allLoop_eq]
  cases hkeys : km.AllBindings with
  | nil =>
    refine ⟨_, rfl, ?_, rfl, rfl, rfl, rfl, rfl, rfl, ?_⟩
    · simp [ViewAllColumns, hkeys, viewAllLoop, bind, Except.bind, pure, Except.pure]
    · rw [← hfilter, hkeys]
  | cons key rest =>
    have hn : 1 ≤ km.AllBindings.length := by rw [hkeys]; simp
    have hR := rowCountOf_pos env km.AllBindings.length km.ShowAllColumnCount hc hn
    obtain ⟨st, hl, g1, g2, g3, g4⟩ := viewAllLoop_texts env km km.AllBindings.length
      (rowCountOf env km.AllBindings.length km.ShowAllColumnCount) (by omega)
      km.AllBindings 0
      { columns := [], colCount := km.ShowAllColumnCount, keyStr := [], sepStr := [],
        descStr := [] } (by simp)
    obtain ⟨e1, e2, e3⟩ := g4 (by rw [hkeys]; simp)
    rw [e1] at g1; rw [e2] at g2; rw [e3] at g3
    rw [hkeys] at hl g1 g2 g3
    refine ⟨st, hl, ?_, e1, e2, e3, ?_, ?_, ?_, ?_⟩
    · simp only [ViewAllColumns, hkeys, hl, bind, Except.bind, pure, Except.pure]
    · simpa [textList] using g1
    · simpa [textList] using g2
    · simpa [textList] using g3
    · rw [← hfilter, hkeys]

/-- C19, at the sample keymap of 5 visible entries with column count 3. -/
theorem ViewAll_places_every_entry_witness :
    ∃ st, viewAllLoop sampleEnv (sampleKeymap 3 5) (sampleKeymap 3 5).AllBindings.length
        (rowCountOf sampleEnv (sampleKeymap 3 5).AllBindings.length
          (sampleKeymap 3 5).ShowAllColumnCount) 0 (sampleKeymap 3 5).AllBindings
        { columns := [], colCount := (sampleKeymap 3 5).ShowAllColumnCount, keyStr := [],
          sepStr := [], descStr := [] } = .ok st ∧
      ViewAllColumns sampleEnv (sampleKeymap 3 5) = .ok st.columns ∧
      st.keyStr = [] ∧ st.sepStr = [] ∧ st.descStr = [] ∧
      (st.columns.map Column.keyTexts).flatten =
        (sampleKeymap 3 5).AllBindings.map
          (fun k => sampleEnv.Render (sampleKeymap 3 5).Style.FullKey k.Binding.Help.Key) ∧
      (st.columns.map Column.sepTexts).flatten =
        (sampleKeymap 3 5).AllBindings.map (fun _ =>
          sampleEnv.Render (sampleKeymap 3 5).Style.FullKeySeparator
            (sampleKeymap 3 5).Style.FullKeySeparatorValue) ∧
      (st.columns.map Column.descTexts).flatten =
        (sampleKeymap 3 5).AllBindings.map
          (fun k => sampleEnv.Render (sampleKeymap 3 5).Style.FullKeyDescription k.GetHelpDesc) ∧
      (sampleKeymap 3 5).AllBindings = (sampleKeymap 3 5).Bindings.filter (fun k => k.Visible) :=
  ViewAll_places_every_entry sampleEnv (sampleKeymap 3 5) (by decide)

/-! ## The full grid: when the last column holds one entry -/

theorem wrap64_eq (x : Int) (h1 : -2 ^ 63 ≤ x) (h2 : x < 2 ^ 63) : wrap64 x = x := by
  unfold wrap64; omega

theorem rowCountOf_mul_ge (env : Env) (n : Nat) (c : Int) (hc : 1 ≤ c) :
    (n : Int) ≤ c * rowCountOf env n c := by
  have hc0 : c ≠ 0 := by omega
  simp only [rowCountOf, if_neg hc0]
  rw [Int.fdiv_eq_ediv _ (by omega)]
  have h := Int.ediv_mul_le (-(n : Int)) hc0
  have e : c * -(-(n : Int) / c) = -(-(n : Int) / c * c) := by ring
  rw [e]
  omega

/-- The pass of the loop body of `ViewAll` for an entry that is not the last one,
ends a row, is not the first entry and is not in the last column by count: the
column is closed and the builders are emptied. -/
theorem viewAllBody_close (env : Env) (km : Keymap) (n : Nat) (R : Int) (i : Nat) (key : Key)
    (st : ViewAllState) (hR : R ≠ 0) (hi : i + 1 < n)
    (hmod : Int.tmod ((i : Int) + 1) R = 0) (hi0 : i ≠ 0)
    (hnl : (st.columns.length : Int) + 1 < st.colCount) :
    ∃ st1, viewAllBody env km n R i key st = .ok st1 ∧ st1.keyStr = [] ∧
      st1.columns.length = st.columns.length + 2 ∧
      st1.colCount = wrap64 (st.colCount + 1) := by
  have hcond : (decide (Int.tmod ((i : Int) + 1) R = 0) && decide (i ≠ 0) &&
      decide ((st.columns.length : Int) + 1 < st.colCount) ||
      decide ((n : Int) - (i : Int) = 1)) = true := by
    simp [hmod, hi0, hnl]
  have hlt : (i : Int) < (n : Int) - 1 := by omega
  simp only [viewAllBody, goMod, if_neg hR, bind, Except.bind, pure, Except.pure]
  rw [if_pos hcond, if_pos hlt]
  exact ⟨_, rfl, rfl, by simp, rfl⟩

/-- The loop of `ViewAll` when `n - 1` is a multiple of the row count, `n ≥ 3` and
`colCount` cannot overflow: the column open at the entry before the last is
closed there, so the last column holds the last entry only. -/
theorem viewAllLoop_single (env : Env) (km : Keymap) (n : Nat) (R c : Int) (hR : 1 ≤ R)
    (hnc : (n : Int) ≤ c * R) (hover : c + (n : Int) < 2 ^ 63)
    (hm : R ∣ (n : Int) - 1) (hn3 : 3 ≤ n) :
    ∀ (rest : List Key) (i : Nat) (st : ViewAllState) (j : Nat), 2 ≤ rest.length →
      i + rest.length = n → st.columns.length = 2 * j → st.colCount = c + (j : Int) →
      (j : Int) * R ≤ (i : Int) →
      ∃ st1 k s d, viewAllLoop env km n R i rest st = .ok st1 ∧
        st1.columns.getLast? = some (Column.block k s d) ∧ Builder.texts k = 1 := by
  intro rest
  induction rest with
  | nil => intro i st j h; simp at h
  | cons key tail ih =>
    intro i st j hlen2 hlen hcols hcc hj
    simp only [List.length_cons] at hlen hlen2
    have hji : (j : Int) ≤ (i : Int) := by nlinarith
    by_cases htail : tail.length = 1
    · -- the entry before the last
      obtain ⟨m, hm⟩ := hm
      have hjm : (j : Int) < m := by
        have : (j : Int) * R < m * R := by
          have : (i : Int) = (n : Int) - 2 := by omega
          nlinarith
        exact lt_of_mul_lt_mul_right this (by omega)
      have hmc : m < c := by
        have : m * R < c * R := by nlinarith
        exact lt_of_mul_lt_mul_right this (by omega)
      obtain ⟨st1, hb, hk, hlen1, _⟩ := viewAllBody_close env km n R i key st (by omega)
        (by omega)
        (Int.tmod_eq_zero_of_dvd ⟨m, by rw [← hm]; omega⟩)
        (by omega)
        (by rw [hcols, hcc]; push_cast; omega)
      rw [viewAllLoop_cons env km n R i key tail st st1 hb]
      match tail, htail with
      | [key2], _ =>
        obtain ⟨lb, st2, hb2, hcase⟩ := viewAllBody_cases env km n R (i + 1) key2 st1 (by omega)
          (by simp at hlen; omega)
        rw [viewAllLoop_cons env km n R (i + 1) key2 [] st1 st2 hb2]
        rcases hcase with ⟨_, hc2, _⟩ | ⟨h, _⟩ | ⟨h, _⟩
        · refine ⟨st2, ?_⟩
          rw [hc2]
          refine ⟨_, _, _, rfl, List.getLast?_concat _, ?_⟩
          rw [texts_writeEntry, hk]
          rfl
        · simp at hlen; omega
        · simp at hlen; omega
    · -- an earlier entry
      obtain ⟨lb, st1, hb, hcase⟩ := viewAllBody_cases env km n R i key st (by omega) (by omega)
      rw [viewAllLoop_cons env km n R i key tail st st1 hb]
      rcases hcase with ⟨h, _⟩ | ⟨_, hmod, _, _, hc1, hcc1, _⟩ | ⟨_, hc1, hcc1, _⟩
      · omega
      · apply ih (i + 1) st1 (j + 1) (by omega) (by omega)
        · rw [hc1]; simp [hcols]; omega
        · rw [hcc1, hcc, wrap64_eq _ (by omega) (by omega)]; push_cast; ring
        · obtain ⟨k, hk⟩ := Int.dvd_of_tmod_eq_zero hmod
          have hjk : (j : Int) < k := by
            have : (j : Int) * R < k * R := by nlinarith
            exact lt_of_mul_lt_mul_right this (by omega)
          push_cast
          nlinarith
      · apply ih (i + 1) st1 j (by omega) (by omega)
        · rw [hc1]; exact hcols
        · rw [hcc1]; exact hcc
        · push_cast; omega

/-- The converse of the not-single property of the last column: for every keymap
with column count `c > 1` and `n ≥ 3` visible entries, `n - 1` a multiple of
`rowCount = ceil(n / c)` and `c + n < 2^63` (no overflow of `colCount`), the last
column that `ViewAll` closes holds exactly one entry. -/
theorem ViewAllColumns_last_single (env : Env) (km : Keymap)
    (hc : 1 < km.ShowAllColumnCount)
    (hover : km.ShowAllColumnCount + (km.AllBindings.length : Int) < 2 ^ 63)
    (hn3 : 3 ≤ km.AllBindings.length)
    (hmod : ((km.AllBindings.length : Int) - 1)
      % rowCountOf env km.AllBindings.length km.ShowAllColumnCount = 0) :
    ∃ cols last, ViewAllColumns env km = .ok cols ∧ cols.getLast? = some last ∧
      last.isBlock = true ∧ last.entries = 1 := by
  have hR := rowCountOf_pos env km.AllBindings.length km.ShowAllColumnCount (by omega)
    (by omega)
  obtain ⟨st1, k, s, d, hloop, hlast, htexts⟩ :=
    viewAllLoop_single env km km.AllBindings.length
      (rowCountOf env km.AllBindings.length km.ShowAllColumnCount) km.ShowAllColumnCount hR
      (rowCountOf_mul_ge env _ _ (by omega)) hover (Int.dvd_of_emod_eq_zero hmod) hn3
      km.AllBindings 0
      { columns := [], colCount := km.ShowAllColumnCount, keyStr := [], sepStr := [],
        descStr := [] } 0 (by omega) (by simp) (by simp) (by simp) (by simp)
  refine ⟨st1.columns, Column.block k s d, ?_, hlast, rfl, htexts⟩
  simp only [ViewAllColumns, hloop, bind, Except.bind, pure, Except.pure]

end Bubblehelp
